import Mathlib

/-!
# Verification of the cmdstanpy text-format utilities

A shallow embedding of `src/cmdstanpy/utils.py`: the R-dump codec
(`_rdump_array`, `rdump`, `rload`, `parse_rdump_value`) and the stan_csv
scanner/validator (`scan_config`, `scan_column_names`, `scan_warmup`,
`scan_metric`, `scan_draws`, `scan_stan_csv`, `check_csv`).

Modelling conventions:
* Python strings are `List Char` (`Chars`); a text file is a `List Chars`
  of its lines with the trailing newline removed (the Python code either
  strips lines or only counts comma-separated fields, so the newline never
  matters; `rload` joins lines after deleting every newline character,
  which concatenation of newline-free lines reproduces exactly).
* A Python `float` is modelled by the decimal literal that denotes it:
  `Dec` holds an integer mantissa `mant` and a count `frac` of digits after
  the decimal point, denoting `mant / 10 ^ frac`.  `str()` of a float always
  shows at least one fractional digit, so floats written by the encoder have
  `frac ≥ 1`.  Exponent-free decimal notation is assumed (CPython switches
  to exponent notation only for very large or small magnitudes).
* Python exceptions are the `PyErr` sum, results are `Except PyErr`.
  `float(...)` and `int(...)` are modelled by `pyFloat` / `pyInt`, decimal
  parsers with optional sign, fraction and exponent, mirroring the numeric
  literals CPython accepts (underscores, `inf` and `nan` are not modelled).
* Reading an open file handle is modelled by an index `pos` into the line
  list; `readline` past the end yields the empty string, as in Python, and
  the seek-back positioning of the scanners is the returned index.
-/

abbrev Chars := List Char

def strC (s : String) : Chars := s.data

/-- Python exception values raised by the modelled code. -/
inductive PyErr where
  | valueError (msg : Chars)
  | typeError (msg : Chars)
  | zeroDivisionError (msg : Chars)
  | indexError (msg : Chars)
  deriving DecidableEq, Repr

instance {ε α : Type} [DecidableEq ε] [DecidableEq α] : DecidableEq (Except ε α) := fun a b =>
  match a, b with
  | .error x, .error y =>
    if h : x = y then .isTrue (by rw [h]) else .isFalse (by intro hc; cases hc; exact h rfl)
  | .error _, .ok _ => .isFalse (by intro hc; cases hc)
  | .ok _, .error _ => .isFalse (by intro hc; cases hc)
  | .ok x, .ok y =>
    if h : x = y then .isTrue (by rw [h]) else .isFalse (by intro hc; cases hc; exact h rfl)

/-- The whitespace set of Python `str.strip()`. -/
def isPyWs (c : Char) : Bool := decide (c ∈ [' ', '\t', '\n', '\r', '\x0b', '\x0c'])

/-- Python `s.strip()`. -/
def pyStrip (cs : Chars) : Chars := ((cs.dropWhile isPyWs).reverse.dropWhile isPyWs).reverse

/-- Python `s.lstrip(' #\t')`, used on mass-matrix rows and config comments. -/
def lstripHash (cs : Chars) : Chars := cs.dropWhile (fun c => decide (c ∈ [' ', '#', '\t']))

/-- Python `s.startswith('#')`. -/
def startsHash (cs : Chars) : Bool := match cs with | '#' :: _ => true | _ => false

/-- Python `s.startswith(pre)`. -/
def pyStarts (pre cs : Chars) : Bool := List.isPrefixOf pre cs

/-- Python `s.endswith(suf)`. -/
def pyEnds (suf cs : Chars) : Bool := List.isSuffixOf suf cs

/-- Python `s.replace(c, '')`: delete every occurrence of the character. -/
def delChar (c : Char) (cs : Chars) : Chars := cs.filter (fun x => x ≠ c)

/-- Python `s.split(sep)` for a one-character separator: never empty,
`"".split(sep) = ['']`. -/
def splitCh (sep : Char) : Chars → List Chars
  | [] => [[]]
  | c :: cs =>
    match splitCh sep cs with
    | [] => [[c]]
    | g :: gs => if c = sep then [] :: g :: gs else (c :: g) :: gs

/-- Python `s.split('<-')`: greedy left-to-right split on the two-character
assignment marker. -/
def splitArrow : Chars → List Chars
  | [] => [[]]
  | [c] => [[c]]
  | c :: c2 :: cs =>
    if c = '<' ∧ c2 = '-' then
      match splitArrow cs with
      | [] => [[]] -- unreachable: splitArrow never returns []
      | g :: gs => [] :: g :: gs
    else
      match splitArrow (c2 :: cs) with
      | [] => [[c]]
      | g :: gs => (c :: g) :: gs

/-- Python `'<-' in s`. -/
def hasArrow (cs : Chars) : Bool := decide (2 ≤ (splitArrow cs).length)

/-! ## Decimal digits and numerals -/

def digitChars : Chars := ['0', '1', '2', '3', '4', '5', '6', '7', '8', '9']

/-- The ASCII decimal-digit test used by the numeric literal grammar. -/
def isDig (c : Char) : Bool := decide (c ∈ digitChars)

/-- The decimal digit character for `n % 10`. -/
def digitChar (n : ℕ) : Char :=
  match n with
  | 0 => '0' | 1 => '1' | 2 => '2' | 3 => '3' | 4 => '4'
  | 5 => '5' | 6 => '6' | 7 => '7' | 8 => '8' | 9 => '9'
  | _ => '0'

/-- The numeric value of a digit character. -/
def digitVal (c : Char) : ℕ :=
  match c with
  | '0' => 0 | '1' => 1 | '2' => 2 | '3' => 3 | '4' => 4
  | '5' => 5 | '6' => 6 | '7' => 7 | '8' => 8 | '9' => 9
  | _ => 0

/-- Value of a digit string, most significant digit first. -/
def digitsVal (ds : Chars) : ℕ := ds.foldl (fun a c => a * 10 + digitVal c) 0

/-- Decimal digits of `n`, most significant first (fuel-structured so that the
kernel can evaluate it). -/
def natDigitsGo : ℕ → ℕ → Chars
  | 0, _ => []
  | fuel + 1, n =>
    if n < 10 then [digitChar n] else natDigitsGo fuel (n / 10) ++ [digitChar (n % 10)]

def natDigits (n : ℕ) : Chars := natDigitsGo (n + 1) n

/-- Exactly `k` decimal digits of `n % 10 ^ k`, most significant first:
the zero-padded fractional part of a decimal literal. -/
def fracDigits : ℕ → ℕ → Chars
  | 0, _ => []
  | k + 1, n => fracDigits k (n / 10) ++ [digitChar (n % 10)]

/-- Python `str` of a nonnegative integer. -/
def natStr (n : ℕ) : Chars := natDigits n

/-- Python `str` of an integer. -/
def intStr (n : ℤ) : Chars := (if n < 0 then ['-'] else []) ++ natDigits n.natAbs

/-! ## Python floats as decimal literals -/

/-- A Python float modelled by a decimal literal: the value `mant / 10 ^ frac`. -/
structure Dec where
  mant : ℤ
  frac : ℕ
  deriving DecidableEq, Repr

def Dec.toRat (d : Dec) : ℚ := (d.mant : ℚ) / (10 : ℚ) ^ d.frac

/-- The number of fractional digits printed for a float: at least one. -/
def Dec.exp10 (d : Dec) : ℕ := max 1 d.frac

/-- The magnitude of the mantissa rescaled to `exp10` fractional digits. -/
def Dec.scaled (d : Dec) : ℕ := (d.mant * (10 : ℤ) ^ (d.exp10 - d.frac)).natAbs

/-- Python `str` of a float: sign, integer part, `'.'`, and at least one
fractional digit. -/
def pyFloatStr (d : Dec) : Chars :=
  (if d.mant < 0 then ['-'] else []) ++
    natDigits (d.scaled / 10 ^ d.exp10) ++ '.' :: fracDigits d.exp10 (d.scaled % 10 ^ d.exp10)

/-- Optional leading sign of a numeric literal; returns the negativity flag. -/
def parseSign : Chars → Bool × Chars
  | [] => (false, [])
  | c :: cs =>
    if c = '-' then (true, cs) else if c = '+' then (false, cs) else (false, c :: cs)

/-- Split a maximal digit prefix. -/
def spanDigits (cs : Chars) : Chars × Chars := (cs.takeWhile isDig, cs.dropWhile isDig)

def applySign (neg : Bool) (n : ℤ) : ℤ := if neg then -n else n

/-- The unsigned part of the decimal-literal grammar of CPython `float()`:
digits* ('.' digits*)? (('e'|'E') sign? digits+)?, requiring at least one
mantissa digit and no trailing characters. -/
def parseFloatMag (cs1 : Chars) : Option Dec :=
  let (ds1, cs2) := spanDigits cs1
  let (ds2, cs3) :=
    match cs2 with
    | '.' :: rest => spanDigits rest
    | _ => ([], cs2)
  if ds1.isEmpty && ds2.isEmpty then none
  else
    let mant : ℤ := (digitsVal (ds1 ++ ds2) : ℤ)
    match cs3 with
    | [] => some ⟨mant, ds2.length⟩
    | e :: rest =>
      if e = 'e' ∨ e = 'E' then
        let (eneg, r1) := parseSign rest
        let (ds3, r2) := spanDigits r1
        if ds3.isEmpty || !r2.isEmpty then none
        else
          let sc : ℤ := applySign eneg (digitsVal ds3) - (ds2.length : ℤ)
          if 0 ≤ sc then some ⟨mant * (10 : ℤ) ^ sc.toNat, 0⟩
          else some ⟨mant, (-sc).toNat⟩
      else none

/-- The decimal-literal grammar of CPython `float()` on an already stripped
string: an optional sign applied to the unsigned literal. -/
def parseFloatCore (cs : Chars) : Option Dec :=
  let (neg, cs1) := parseSign cs
  match parseFloatMag cs1 with
  | none => none
  | some d => some ⟨applySign neg d.mant, d.frac⟩

/-- CPython `float(s)`: strip, then parse the decimal literal. -/
def pyFloat (cs : Chars) : Except PyErr Dec :=
  match parseFloatCore (pyStrip cs) with
  | some d => .ok d
  | none => .error (.valueError (strC "could not convert string to float: " ++ cs))

/-- The unsigned part of the integer-literal grammar of CPython `int()`:
digits+ and nothing else. -/
def parseIntMag (cs1 : Chars) : Option ℤ :=
  let (ds, rest) := spanDigits cs1
  if ds.isEmpty || !rest.isEmpty then none else some ((digitsVal ds : ℤ))

/-- The integer-literal grammar of CPython `int()` on a stripped string:
an optional sign applied to the unsigned literal. -/
def parseIntCore (cs : Chars) : Option ℤ :=
  let (neg, cs1) := parseSign cs
  match parseIntMag cs1 with
  | none => none
  | some n => some (applySign neg n)

/-- CPython `int(s)`: strip, then parse the integer literal. -/
def pyInt (cs : Chars) : Except PyErr ℤ :=
  match parseIntCore (pyStrip cs) with
  | some n => .ok n
  | none => .error (.valueError (strC "invalid literal for int with base 10: " ++ cs))

/-! ## Multi-dimensional index arithmetic

A numpy `ndarray` is modelled by its row-major (C-order) element list plus its
shape.  `val.T.flat` enumerates the elements in column-major (Fortran) order:
first index fastest.  `np.array(vals).reshape(dims, order='F')` fills a new
array whose row-major element list reads the flat list at column-major
positions. -/

/-- All multi-indices of `shape` in column-major order (first index fastest). -/
def cartColMajor : List ℕ → List (List ℕ)
  | [] => [[]]
  | d :: ds => (cartColMajor ds).flatMap (fun rest => (List.range d).map (fun i => i :: rest))

/-- All multi-indices of `shape` in row-major order (last index fastest). -/
def cartRowMajor : List ℕ → List (List ℕ)
  | [] => [[]]
  | d :: ds => (List.range d).flatMap (fun i => (cartRowMajor ds).map (fun rest => i :: rest))

/-- Column-major (Fortran) linear position of a multi-index. -/
def cmIndex : List ℕ → List ℕ → ℕ
  | d :: ds, i :: is => i + d * cmIndex ds is
  | _, _ => 0

/-- Row-major (C) linear position of a multi-index. -/
def rmIndex : List ℕ → List ℕ → ℕ
  | _ :: ds, i :: is => i * ds.prod + rmIndex ds is
  | _, _ => 0

/-- `val.T.flat` of a row-major array: the elements in column-major order. -/
def colMajorFlatten (xs : List Dec) (shape : List ℕ) : List Dec :=
  (cartColMajor shape).map (fun idx => xs.getD (rmIndex shape idx) ⟨0, 0⟩)

/-- `np.array(flat).reshape(shape, order='F')` as a row-major element list. -/
def reshapeF (flat : List Dec) (shape : List ℕ) : List Dec :=
  (cartRowMajor shape).map (fun idx => flat.getD (cmIndex shape idx) ⟨0, 0⟩)

/-! ## DumpCodec: values -/

/-- A Python value handed to the dump encoder: an int scalar, a float scalar,
a list of floats, or a numpy float array (row-major data plus shape). -/
inductive PyVal where
  | vint (n : ℤ)
  | vfloat (d : Dec)
  | vlist (xs : List Dec)
  | varray (xs : List Dec) (shape : List ℕ)
  deriving DecidableEq, Repr

/-- A value produced by the dump decoder: `int`, `float`, a 1-D `np.array`,
or a reshaped multi-dimensional `np.array` (row-major data plus shape). -/
inductive RVal where
  | rint (n : ℤ)
  | rfloat (d : Dec)
  | rvec (xs : List Dec)
  | rarr (xs : List Dec) (shape : List ℕ)
  deriving DecidableEq, Repr

/-- The decoder image of an encoder input: what a faithful round trip
produces.  A 1-D numpy array comes back as a 1-D `np.array`; lists also
come back as 1-D `np.array`s with the same numeric values. -/
def toRVal : PyVal → RVal
  | .vint n => .rint n
  | .vfloat d => .rfloat d
  | .vlist xs => .rvec xs
  | .varray xs shape => if shape = [shape.prod] then .rvec xs else .rarr xs shape

/-! ## DumpCodec: encoder -/

/-- Python `', '.join(...)`. -/
def joinSep (sep : Chars) : List Chars → Chars
  | [] => []
  | [x] => x
  | x :: y :: xs => x ++ sep ++ joinSep sep (y :: xs)

/-- Python `str` of a shape tuple: `str((2, 3)) = "(2, 3)"`, `str((5,)) = "(5,)"`. -/
def tupleStr (shape : List ℕ) : Chars :=
  match shape with
  | [d] => '(' :: natStr d ++ strC ",)"
  | _ => '(' :: joinSep (strC ", ") (shape.map natStr) ++ [')']

/-- `utils._rdump_array`: flatten in column-major order into `c(...)`; wrap
in `structure(..., .Dim = ...)` unless the array is one-dimensional. -/
def _rdump_array (key : Chars) (xs : List Dec) (shape : List ℕ) : Chars :=
  let c := strC "c(" ++ joinSep (strC ", ") ((colMajorFlatten xs shape).map pyFloatStr) ++ [')']
  if shape = [shape.prod] then key ++ strC " <- " ++ c
  else key ++ strC " <- structure(" ++ c ++ strC ", .Dim = c" ++ tupleStr shape ++ [')']

/-- Python `str`/`repr` of a list of floats. -/
def pyListRepr (xs : List Dec) : Chars :=
  '[' :: joinSep (strC ", ") (xs.map pyFloatStr) ++ [']']

/-- One iteration of the `utils.rdump` loop: the line written for one entry.
An ndarray or list with more than one element goes through `_rdump_array`;
otherwise the scalar form `key <- value` is written, where an ndarray is
first collapsed to `val.flat[0]` (an `IndexError` for an empty array) while
a list, having no `.flat`, keeps its bracketed `str()` form. -/
def rdumpLine (key : Chars) (v : PyVal) : Except PyErr Chars :=
  match v with
  | .varray xs shape =>
    if 1 < xs.length then .ok (_rdump_array key xs shape)
    else
      match xs with
      | x :: _ => .ok (key ++ strC " <- " ++ pyFloatStr x)
      | [] => .error (.indexError (strC "index 0 is out of bounds"))
  | .vlist xs =>
    if 1 < xs.length then .ok (_rdump_array key xs [xs.length])
    else .ok (key ++ strC " <- " ++ pyListRepr xs)
  | .vint n => .ok (key ++ strC " <- " ++ intStr n)
  | .vfloat d => .ok (key ++ strC " <- " ++ pyFloatStr d)

/-- `utils.rdump`: the lines written to the dump file, one per entry in
mapping order. -/
def rdump (data : List (Chars × PyVal)) : Except PyErr (List Chars) :=
  data.mapM (fun kv => rdumpLine kv.1 kv.2)

/-! ## DumpCodec: decoder -/

/-- Match a literal at the head of the input, returning the rest. -/
def matchLit (lit cs : Chars) : Option Chars :=
  if List.isPrefixOf lit cs then some (cs.drop lit.length) else none

/-- Regex `\s*`. -/
def skipWs (cs : Chars) : Chars := cs.dropWhile (fun c => isPyWs c)

/-- Regex `[^)]*` (greedy), splitting at the first `)`. -/
def takeToParen (cs : Chars) : Chars × Chars :=
  (cs.takeWhile (fun c => c ≠ ')'), cs.dropWhile (fun c => c ≠ ')'))

/-- The `parse_rdump_value` regex
`structure\(\s*c\((?P<vals>[^)]*)\)(,\s*\.Dim\s*=\s*c\s*\((?P<dims>[^)]*)\s*\))?\)`
matched at the start of the string: returns the `vals` capture and the
optional `dims` capture.  The optional group is tried greedily and dropped
(regex backtracking) if the final `\)` cannot match after it. -/
def structMatch (cs : Chars) : Option (Chars × Option Chars) := do
  let r1 ← matchLit (strC "structure(") cs
  let r2 ← matchLit (strC "c(") (skipWs r1)
  let (vals, r3) := takeToParen r2
  let r4 ← matchLit [')'] r3
  let dimAttempt : Option Chars := do
    let a1 ← matchLit [','] r4
    let a2 ← matchLit (strC ".Dim") (skipWs a1)
    let a3 ← matchLit ['='] (skipWs a2)
    let a4 ← matchLit ['c'] (skipWs a3)
    let a5 ← matchLit ['('] (skipWs a4)
    let (dims, a6) := takeToParen a5
    let a7 ← matchLit [')'] a6
    let _ ← matchLit [')'] a7
    pure dims
  match dimAttempt with
  | some dims => some (vals, some dims)
  | none =>
    match matchLit [')'] r4 with
    | some _ => some (vals, none)
    | none => none

/-- `utils.parse_rdump_value`: right-hand side of a dump assignment.
Tried in order: `structure(c(...), .Dim = c(...))` (array, column-major
reshape), `c(...)` (vector of floats), float literal (contains `.` or `e`),
int literal.  A failed `structure` match raises `ValueError(rhs)`; a raised
`TypeError` would be converted to the `bad value` message (the modelled
sub-parsers only raise `ValueError`, which propagates unchanged, as in the
source where only `TypeError` is caught). -/
def parse_rdump_value (rhs : Chars) : Except PyErr RVal :=
  let res : Except PyErr RVal :=
    if pyStarts (strC "structure") rhs then
      match structMatch rhs with
      | none => .error (.valueError rhs)
      | some (vals, odims) => do
        let vs ← (splitCh ',' vals).mapM pyFloat
        match odims with
        | none => pure (.rvec vs)
        | some dims => do
          let ds ← (splitCh ',' dims).mapM pyInt
          if ds.any (fun d => decide (d < 0)) then
            .error (.valueError (strC "negative reshape dimensions are not modelled"))
          else
            let shape := ds.map Int.toNat
            if shape.prod ≠ vs.length then .error (.valueError (strC "cannot reshape array"))
            else pure (.rarr (reshapeF vs shape) shape)
    else if pyStarts (strC "c(") rhs && pyEnds [')'] rhs then do
      let vs ← (splitCh ',' ((rhs.drop 2).dropLast)).mapM pyFloat
      pure (.rvec vs)
    else if ('.' ∈ rhs) ∨ ('e' ∈ rhs) then do
      let d ← pyFloat rhs
      pure (.rfloat d)
    else do
      let n ← pyInt rhs
      pure (.rint n)
  match res with
  | .error (.typeError _) => .error (.valueError (strC "bad value in Rdump file: " ++ rhs))
  | other => other

theorem dropWhile_length_le {α : Type} (p : α → Bool) (l : List α) :
    (l.dropWhile p).length ≤ l.length := by
  induction l with
  | nil => simp [List.dropWhile]
  | cons a l ih =>
    simp only [List.dropWhile]
    cases p a
    · simp
    · simpa using Nat.le_succ_of_le ih

/-- The statement blocks of `utils.rload`: each block is a line containing
`<-` followed by the continuation lines (no `<-`) before the next statement.
Fuel-structured (each step consumes at least the head line, so the line count
is sufficient fuel). -/
def rloadGroupsGo : ℕ → List Chars → List (List Chars)
  | 0, _ => []
  | _, [] => []
  | fuel + 1, l :: rest =>
    (l :: rest.takeWhile (fun s => !hasArrow s)) ::
      rloadGroupsGo fuel (rest.dropWhile (fun s => !hasArrow s))

def rloadGroups (ls : List Chars) : List (List Chars) := rloadGroupsGo ls.length ls

/-- One statement of `utils.rload`: join the block (newlines deleted), split
on `<-` into exactly two parts, strip both, strip Jags double quotes from the
identifier and `L` suffixes from the right-hand side, and parse the value. -/
def processStatement (block : List Chars) : Except PyErr (Chars × RVal) :=
  let var_data := block.flatten
  match (splitArrow var_data).map pyStrip with
  | [lhs, rhs] =>
    let lhs := delChar '"' lhs
    let rhs := delChar 'L' rhs
    (parse_rdump_value rhs).map (fun v => (lhs, v))
  | _ => .error (.valueError (strC "cannot unpack assignment statement"))

abbrev RDict := List (Chars × RVal)

/-- Python `dict` insertion: overwrite in place or append. -/
def upsert {β : Type} (d : List (Chars × β)) (k : Chars) (v : β) : List (Chars × β) :=
  if d.any (fun p => decide (p.1 = k)) then d.map (fun p => if p.1 = k then (k, v) else p)
  else d ++ [(k, v)]

/-- Python `dict` lookup. -/
def dictFind {β : Type} (d : List (Chars × β)) (k : Chars) : Option β :=
  (d.find? (fun p => decide (p.1 = k))).map Prod.snd

/-- `utils.rload` on the lines of the file: skip lines before the first
`<-`; return `None` when there is none; otherwise parse each statement block
and accumulate the mapping. -/
def rload (lines : List Chars) : Except PyErr (Option RDict) :=
  let rest := lines.dropWhile (fun s => !hasArrow s)
  match rest with
  | [] => .ok none
  | _ => do
    let entries ← (rloadGroups rest).mapM processStatement
    pure (some (entries.foldl (fun d kv => upsert d kv.1 kv.2) []))

/-! ## RunOutputScanner: metadata dictionary -/

/-- A value stored in the scan metadata dictionary: a configuration string,
an integer, the column-name tuple, a decoded draw row, or Python `None`. -/
inductive CVal where
  | s (v : Chars)
  | n (v : ℤ)
  | names (cs : List Chars)
  | fdraw (xs : List Dec)
  | pynone
  deriving DecidableEq, Repr

abbrev Dict := List (Chars × CVal)

/-- `fp.readline()` at a line index: the empty string past the end. -/
def readAt (lines : List Chars) (pos : ℕ) : Chars := lines.getD pos []

/-! ## scan_config -/

/-- The body of the `utils.scan_config` loop on one stripped comment line:
skip `(Default)` lines; record `key = value` pairs with trimmed key and
value; `file = ...` goes to `data_file` when the value does not end in
`csv` and is dropped otherwise. -/
def scan_config_line (d : Dict) (line : Chars) : Dict :=
  if pyEnds (strC "(Default)") line = true then d
  else
    match splitCh '=' (lstripHash line) with
    | [k, v] =>
      if pyStrip k = strC "file" ∧ pyEnds (strC "csv") v = false then
        upsert d (strC "data_file") (.s (pyStrip v))
      else if pyStrip k ≠ strC "file" then upsert d (pyStrip k) (.s (pyStrip v))
      else d
    | _ => d

def scan_config_go (lines : List Chars) : ℕ → ℕ → ℕ → Dict → ℕ × ℕ × Dict
  | 0, pos, lineno, d => (pos, lineno, d)
  | fuel + 1, pos, lineno, d =>
    let line := pyStrip (readAt lines pos)
    if line.length > 0 ∧ startsHash line = true then
      scan_config_go lines fuel (pos + 1) (lineno + 1) (scan_config_line d line)
    else (pos, lineno, d)

/-- `utils.scan_config`: consume the leading comment lines, recording
non-default configuration, and leave the cursor on the first non-comment
line. -/
def scan_config (lines : List Chars) (pos lineno : ℕ) (d : Dict) : ℕ × ℕ × Dict :=
  scan_config_go lines (lines.length + 1) pos lineno d

/-! ## scan_column_names and scan_warmup -/

/-- `utils.scan_column_names`: split the header line on commas, record the
tuple as `column_names` and `len - 1` as `num_params`. -/
def scan_column_names (lines : List Chars) (pos lineno : ℕ) (d : Dict) : ℕ × ℕ × Dict :=
  let names := splitCh ',' (pyStrip (readAt lines pos))
  (pos + 1, lineno + 1,
    upsert (upsert d (strC "column_names") (.names names)) (strC "num_params")
      (.n ((names.length : ℤ) - 1)))

def scan_warmup_go (lines : List Chars) : ℕ → ℕ → ℕ → ℕ × ℕ
  | 0, pos, lineno => (pos, lineno)
  | fuel + 1, pos, lineno =>
    let line := pyStrip (readAt lines pos)
    if line.length > 0 ∧ startsHash line = false then
      scan_warmup_go lines fuel (pos + 1) (lineno + 1)
    else (pos, lineno)

/-- `utils.scan_warmup`: when `save_warmup` was recorded, discard the
contiguous non-comment lines; the dictionary is unchanged. -/
def scan_warmup (lines : List Chars) (pos lineno : ℕ) (d : Dict) : ℕ × ℕ :=
  if dictFind d (strC "save_warmup") = none then (pos, lineno)
  else scan_warmup_go lines (lines.length + 1) pos lineno

/-! ## scan_metric -/

def mass_matrix_msg (lineno : ℕ) : Chars :=
  strC "line " ++ natStr lineno ++ strC ": invalid or missing mass matrix specification"

/-- The `for i in range(1, num_params)` loop of `utils.scan_metric`: each of
the remaining `num_params - 1` mass-matrix rows must have exactly
`num_params` comma-separated fields. -/
def scan_metric_rows (lines : List Chars) : ℕ → ℕ → ℕ → ℕ → Except PyErr (ℕ × ℕ)
  | 0, pos, lineno, _ => .ok (pos, lineno)
  | k + 1, pos, lineno, nparams =>
    let line := lstripHash (readAt lines pos)
    if (splitCh ',' line).length ≠ nparams then .error (.valueError (mass_matrix_msg (lineno + 1)))
    else scan_metric_rows lines k (pos + 1) (lineno + 1) nparams

/-- `utils.scan_metric`: default `metric` to `diag_e`; expect the
`# Adaptation terminated` comment, a parsable `# Step size = ...` comment,
the mass-matrix label matching the metric, then the first mass-matrix row,
whose field count overwrites `num_params`; for `dense_e`, `num_params - 1`
further rows of exactly `num_params` fields. -/
def scan_metric (lines : List Chars) (pos lineno : ℕ) (d : Dict) : Except PyErr (ℕ × ℕ × Dict) :=
  let d := if dictFind d (strC "metric") = none then upsert d (strC "metric") (.s (strC "diag_e")) else d
  let metric := dictFind d (strC "metric")
  let line1 := pyStrip (readAt lines pos)
  if line1 ≠ strC "# Adaptation terminated" then
    .error (.valueError (strC "line " ++ natStr (lineno + 1) ++ strC ": expecting metric, found " ++ line1))
  else
    let line2 := pyStrip (readAt lines (pos + 1))
    match splitCh '=' line2 with
    | [label, stepsize] =>
      if pyStarts (strC "# Step size") label = false then
        .error (.valueError (strC "line " ++ natStr (lineno + 2) ++ strC ": expecting stepsize, found " ++ line2))
      else if (pyFloat (pyStrip stepsize)).isOk = false then
        .error (.valueError (strC "line " ++ natStr (lineno + 2) ++ strC ": invalid stepsize: " ++ stepsize))
      else
        let line3 := pyStrip (readAt lines (pos + 2))
        if ¬ ((metric = some (.s (strC "diag_e")) ∧
                line3 = strC "# Diagonal elements of inverse mass matrix:") ∨
              (metric = some (.s (strC "dense_e")) ∧
                line3 = strC "# Elements of inverse mass matrix:")) then
          .error (.valueError (mass_matrix_msg (lineno + 3)))
        else
          let line4 := lstripHash (readAt lines (pos + 3))
          let num_params := (splitCh ',' line4).length
          let d := upsert d (strC "num_params") (.n (num_params : ℤ))
          if metric = some (.s (strC "diag_e")) then .ok (pos + 4, lineno + 4, d)
          else
            (scan_metric_rows lines (num_params - 1) (pos + 4) (lineno + 4) num_params).map
              (fun pl => (pl.1, pl.2, d))
    | _ => .error (.valueError (strC "cannot unpack stepsize line"))

/-! ## scan_draws -/

def bad_draw_msg (lineno expected found : ℕ) : Chars :=
  strC "line " ++ natStr lineno ++ strC ": bad draw, expecting " ++ natStr expected ++
    strC " items, found " ++ natStr found

/-- The `utils.scan_draws` loop: consume contiguous non-comment lines, each
of exactly `ncols` comma-separated fields (else fail with the 1-based line
number and the two counts); the first line is decoded to 64-bit floats. -/
def scan_draws_go (lines : List Chars) (ncols : ℕ) :
    ℕ → ℕ → ℕ → ℕ → Option (List Dec) → Except PyErr (ℕ × ℕ × ℕ × Option (List Dec))
  | 0, pos, lineno, draws, fd => .ok (pos, lineno, draws, fd)
  | fuel + 1, pos, lineno, draws, fd =>
    let line := pyStrip (readAt lines pos)
    if line.length > 0 ∧ startsHash line = false then
      let data := splitCh ',' line
      if data.length ≠ ncols then
        .error (.valueError (bad_draw_msg (lineno + 1) ncols (splitCh ',' line).length))
      else
        match fd with
        | none =>
          match data.mapM pyFloat with
          | .error e => .error e
          | .ok xs => scan_draws_go lines ncols fuel (pos + 1) (lineno + 1) (draws + 1) (some xs)
        | some _ => scan_draws_go lines ncols fuel (pos + 1) (lineno + 1) (draws + 1) fd
    else .ok (pos, lineno, draws, fd)

/-- `utils.scan_draws`: count the draw rows and record `draws` and
`first_draw` (Python `None` when there are no draw rows). -/
def scan_draws (lines : List Chars) (pos lineno : ℕ) (d : Dict) : Except PyErr (ℕ × ℕ × Dict) :=
  match dictFind d (strC "column_names") with
  | some (.names cs) =>
    (scan_draws_go lines cs.length (lines.length + 1) pos lineno 0 none).map
      (fun r =>
        match r with
        | (pos, lineno, draws, fd) =>
          (pos, lineno,
            upsert (upsert d (strC "draws") (.n (draws : ℤ))) (strC "first_draw")
              (match fd with | none => .pynone | some xs => .fdraw xs)))
  | _ => .error (.typeError (strC "column_names missing or not a tuple"))

/-! ## scan_stan_csv and check_csv -/

/-- `utils.scan_stan_csv`: the five sub-scans in order, the metric scan only
when sampling. -/
def scan_stan_csv (lines : List Chars) (is_sampling : Bool) : Except PyErr Dict :=
  match scan_config lines 0 0 [] with
  | (pos, lineno, d) =>
    match scan_column_names lines pos lineno d with
    | (pos, lineno, d) =>
      match scan_warmup lines pos lineno d with
      | (pos, lineno) =>
        if is_sampling then do
          let (pos2, lineno2, d2) ← scan_metric lines pos lineno d
          let (_, _, d3) ← scan_draws lines pos2 lineno2 d2
          pure d3
        else do
          let (_, _, d3) ← scan_draws lines pos lineno d
          pure d3

/-- CPython `int(x)` on a dictionary value: parse a string, pass an int. -/
def pyIntOfCVal (v : CVal) : Except PyErr ℤ :=
  match v with
  | .s cs => pyInt cs
  | .n m => .ok m
  | _ => .error (.typeError (strC "int argument must be a string or a number"))

/-- `int(math.ceil(a / b))` for integers `a`, `b ≠ 0`: exact ceiling. -/
def pyCeilDivInt (a b : ℤ) : ℤ := -(Int.fdiv (-a) b)

/-- The draws-specification block of `utils.check_csv` (lines 294-299):
`1` when optimizing, else `int(meta.get('num_samples', 1000))`, divided with
ceiling by `meta['thin']` when present.  `meta['thin']` is used directly as
the divisor: a recorded configuration value is a string, and `int / str`
raises `TypeError` in Python 3. -/
def check_csv_draws (meta : Dict) (is_optimizing : Bool) : Except PyErr ℤ :=
  if is_optimizing then .ok 1
  else do
    let ds ← pyIntOfCVal ((dictFind meta (strC "num_samples")).getD (.n 1000))
    if (dictFind meta (strC "thin")).isSome then
      match dictFind meta (strC "thin") with
      | some (.n t) =>
        if t = 0 then .error (.zeroDivisionError (strC "division by zero"))
        else .ok (pyCeilDivInt ds t)
      | some _ => .error (.typeError (strC "unsupported operand types for div: int and str"))
      | none => .ok ds
    else .ok ds

/-- `utils.check_csv`: scan the file, compute the expected draw count, and
fail when the observed `draws` differs. -/
def check_csv (path : Chars) (lines : List Chars) (is_optimizing is_sampling : Bool) :
    Except PyErr Dict := do
  let meta ← scan_stan_csv lines is_sampling
  let spec ← check_csv_draws meta is_optimizing
  match dictFind meta (strC "draws") with
  | some (.n draws) =>
    if draws ≠ spec then
      .error (.valueError (strC "bad csv file " ++ path ++ strC ", expected " ++ intStr spec ++
        strC " draws, found " ++ intStr draws))
    else pure meta
  | _ => .error (.typeError (strC "draws entry missing"))

/-- The characters that can occur in a printed float. -/
def numChars : Chars := strC "0123456789-."

/-- Validity of a multi-index for a shape: componentwise in range. -/
def ValidIdx (shape idx : List ℕ) : Prop := List.Forall₂ (fun d i => i < d) shape idx



/-- A sampling run-output file whose configuration records `num_samples = 2`
and `thin = 1`, with two draw rows: input for the `check_csv` thin bug. -/
def thin_csv_file : List Chars :=
  [strC "# num_samples = 2",
   strC "# thin = 1",
   strC "lp__,theta",
   strC "# Adaptation terminated",
   strC "# Step size = 0.5",
   strC "# Diagonal elements of inverse mass matrix:",
   strC "# 1, 1",
   strC "-1.0,2.0",
   strC "-1.5,2.5"]



/-- A line the draw scan consumes without error: nonempty after stripping,
not a comment, and with exactly `ncols` comma-separated fields. -/
def drawLineOK (lines : List Chars) (p ncols : ℕ) : Prop :=
  (pyStrip (readAt lines p)).length > 0 ∧ startsHash (pyStrip (readAt lines p)) = false ∧
    (splitCh ',' (pyStrip (readAt lines p))).length = ncols



/-- A sampling file whose diag_e metric block carries four fields while the
header names only three columns; the scan succeeds and records
num_params = 4. -/
def c4file : List Chars :=
  [strC "# num_samples = 1000",
   strC "lp__,theta,beta",
   strC "# Adaptation terminated",
   strC "# Step size = 0.5",
   strC "# Diagonal elements of inverse mass matrix:",
   strC "# 1, 1, 1, 1",
   strC "-1.0,2.0,3.0"]



/-- Characters of a well-formed R dump identifier: letters, digits,
underscore and dot.  None is whitespace, a quote, an angle bracket or part
of the assignment arrow. -/
def identChars : Chars :=
  strC "abcdefghijklmnopqrstuvwxyzABCDEFGHIJKLMNOPQRSTUVWXYZ0123456789_."

/-- A dump key the encoder and decoder treat faithfully. -/
def keyOK (k : Chars) : Bool := !k.isEmpty && k.all (fun c => decide (c ∈ identChars))

/-- An encoder input value covered by the amended round-trip statement:
floats carry at least one fractional digit (Python float repr always
prints a decimal point), lists and arrays have more than one element (the
encoder collapses smaller ones to scalar form), and array data matches
the shape. -/
def pyValOK : PyVal → Bool
  | .vint _ => true
  | .vfloat d => decide (1 ≤ d.frac)
  | .vlist xs => decide (1 < xs.length) && xs.all (fun d => decide (1 ≤ d.frac))
  | .varray xs shape =>
    decide (1 < xs.length) && decide (xs.length = shape.prod) &&
      xs.all (fun d => decide (1 ≤ d.frac))



/-- The character pool of every encoded right-hand side. -/
def rhsPool : Chars := strC "structure(), .Dim=c" ++ numChars

/-! ## End of model definitions; derived lemmas and claim theorems follow. -/

/-! ## List scanning lemmas -/

theorem takeWhile_append_all {α : Type} (p : α → Bool) (xs ys : List α)
    (h : ∀ c ∈ xs, p c = true) : (xs ++ ys).takeWhile p = xs ++ ys.takeWhile p := by
  induction xs with
  | nil => simp
  | cons a l ih =>
    have ha : p a = true := h a (List.mem_cons_self a l)
    simp only [List.cons_append, List.takeWhile_cons, ha, if_true]
    rw [ih (fun c hc => h c (List.mem_cons_of_mem a hc))]

theorem dropWhile_append_all {α : Type} (p : α → Bool) (xs ys : List α)
    (h : ∀ c ∈ xs, p c = true) : (xs ++ ys).dropWhile p = ys.dropWhile p := by
  induction xs with
  | nil => simp
  | cons a l ih =>
    have ha : p a = true := h a (List.mem_cons_self a l)
    simp only [List.cons_append, List.dropWhile_cons, ha, if_true]
    exact ih (fun c hc => h c (List.mem_cons_of_mem a hc))

theorem takeWhile_all {α : Type} (p : α → Bool) (xs : List α) (h : ∀ c ∈ xs, p c = true) :
    xs.takeWhile p = xs := by
  have h2 := takeWhile_append_all p xs [] h
  simpa using h2

theorem dropWhile_all {α : Type} (p : α → Bool) (xs : List α) (h : ∀ c ∈ xs, p c = true) :
    xs.dropWhile p = [] := by
  have h2 := dropWhile_append_all p xs [] h
  simpa using h2

theorem takeWhile_cons_false {α : Type} (p : α → Bool) (a : α) (xs : List α) (h : p a = false) :
    (a :: xs).takeWhile p = [] := by
  simp [List.takeWhile_cons, h]

theorem dropWhile_cons_false {α : Type} (p : α → Bool) (a : α) (xs : List α) (h : p a = false) :
    (a :: xs).dropWhile p = a :: xs := by
  simp [List.dropWhile_cons, h]

/-! ## pyStrip lemmas -/

theorem pyStrip_nil : pyStrip [] = [] := rfl

theorem pyStrip_cons_ws (c : Char) (cs : Chars) (h : isPyWs c = true) :
    pyStrip (c :: cs) = pyStrip cs := by
  simp [pyStrip, List.dropWhile_cons, h]

/-- Stripping whitespace around a whitespace-delimited core. -/
theorem pyStrip_sandwich (a b mid : Chars)
    (ha : ∀ c ∈ a, isPyWs c = true) (hb : ∀ c ∈ b, isPyWs c = true)
    (hh : ∀ c, mid.head? = some c → isPyWs c = false)
    (hl : ∀ c, mid.getLast? = some c → isPyWs c = false) :
    pyStrip (a ++ mid ++ b) = mid := by
  cases mid with
  | nil =>
    have hab : ∀ c ∈ a ++ b, isPyWs c = true := by
      intro c hc
      rcases List.mem_append.mp hc with h1 | h2
      · exact ha c h1
      · exact hb c h2
    simp only [List.append_nil, pyStrip]
    rw [dropWhile_all _ _ hab]
    rfl
  | cons m ms =>
    have hm : isPyWs m = false := hh m rfl
    unfold pyStrip
    rw [List.append_assoc, dropWhile_append_all _ a _ ha, List.cons_append,
      dropWhile_cons_false _ _ _ hm]
    have hrev : (m :: (ms ++ b)).reverse = b.reverse ++ (m :: ms).reverse := by
      simp
    rw [hrev, dropWhile_append_all _ _ _ (fun c hc => hb c (List.mem_reverse.mp hc))]
    cases hR : (m :: ms).reverse with
    | nil => simp at hR
    | cons r rs =>
      have hrl : (m :: ms).getLast? = some r := by
        rw [← List.head?_reverse, hR]
        rfl
      rw [dropWhile_cons_false _ _ _ (hl r hrl), ← hR, List.reverse_reverse]

theorem mem_of_getLast?_eq {α : Type} {cs : List α} {c : α} (h : cs.getLast? = some c) :
    c ∈ cs := by
  obtain ⟨hne, heq⟩ := List.mem_getLast?_eq_getLast (Option.mem_def.mpr h)
  rw [heq]
  exact List.getLast_mem hne

theorem pyStrip_eq_self (cs : Chars) (h : ∀ c ∈ cs, isPyWs c = false) : pyStrip cs = cs := by
  have h2 := pyStrip_sandwich [] [] cs (by simp) (by simp)
    (fun c hc => h c (List.mem_of_mem_head? hc))
    (fun c hc => h c (mem_of_getLast?_eq hc))
  simpa using h2

theorem pyStrip_append_ws_right (cs : Chars) (c : Char) (hws : isPyWs c = true)
    (hh : ∀ x, cs.head? = some x → isPyWs x = false)
    (hl : ∀ x, cs.getLast? = some x → isPyWs x = false) :
    pyStrip (cs ++ [c]) = cs := by
  have h2 := pyStrip_sandwich [] [c] cs (by simp) (by intro x hx; simp at hx; simp [hx, hws]) hh hl
  simpa using h2

theorem pyStrip_cons_ws_left (cs : Chars) (c : Char) (hws : isPyWs c = true)
    (hh : ∀ x, cs.head? = some x → isPyWs x = false)
    (hl : ∀ x, cs.getLast? = some x → isPyWs x = false) :
    pyStrip (c :: cs) = cs := by
  have h2 := pyStrip_sandwich [c] [] cs (by intro x hx; simp at hx; simp [hx, hws]) (by simp) hh hl
  simpa using h2

/-! ## Digit lemmas -/

theorem digitVal_digitChar (n : ℕ) (h : n < 10) : digitVal (digitChar n) = n := by
  interval_cases n <;> rfl

theorem digitChar_mem (n : ℕ) : digitChar n ∈ digitChars := by
  unfold digitChar
  split <;> decide

theorem digitsValFrom_spec (ds : Chars) : ∀ a : ℕ,
    ds.foldl (fun a c => a * 10 + digitVal c) a = a * 10 ^ ds.length + digitsVal ds := by
  induction ds with
  | nil => intro a; simp [digitsVal]
  | cons c cs ih =>
    intro a
    simp only [List.foldl_cons, List.length_cons, digitsVal] at *
    rw [ih (a * 10 + digitVal c), ih (0 * 10 + digitVal c)]
    ring

theorem digitsVal_append (xs ys : Chars) :
    digitsVal (xs ++ ys) = digitsVal xs * 10 ^ ys.length + digitsVal ys := by
  unfold digitsVal
  rw [List.foldl_append]
  exact digitsValFrom_spec ys _

theorem digitsVal_singleton (c : Char) : digitsVal [c] = digitVal c := by
  simp [digitsVal]

theorem natDigitsGo_spec (fuel : ℕ) : ∀ n, n < fuel →
    digitsVal (natDigitsGo fuel n) = n ∧ natDigitsGo fuel n ≠ [] ∧
      ∀ c ∈ natDigitsGo fuel n, c ∈ digitChars := by
  induction fuel with
  | zero => intro n h; omega
  | succ f ih =>
    intro n h
    by_cases h10 : n < 10
    · simp only [natDigitsGo, if_pos h10]
      refine ⟨?_, by simp, ?_⟩
      · rw [digitsVal_singleton]
        exact digitVal_digitChar n h10
      · intro c hc
        have hc2 : c = digitChar n := by simpa using hc
        rw [hc2]
        exact digitChar_mem n
    · have hdiv : n / 10 < f := by
        have hlt : n / 10 < n := Nat.div_lt_self (by omega) (by omega)
        omega
      obtain ⟨ih1, ih2, ih3⟩ := ih (n / 10) hdiv
      simp only [natDigitsGo, if_neg h10]
      refine ⟨?_, by simp, ?_⟩
      · rw [digitsVal_append, ih1, digitsVal_singleton,
          digitVal_digitChar _ (Nat.mod_lt _ (by omega))]
        simp only [List.length_cons, List.length_nil, pow_one]
        omega
      · intro c hc
        rcases List.mem_append.mp hc with h1 | h2
        · exact ih3 c h1
        · have hc2 : c = digitChar (n % 10) := by simpa using h2
          rw [hc2]
          exact digitChar_mem _

theorem digitsVal_natDigits (n : ℕ) : digitsVal (natDigits n) = n :=
  (natDigitsGo_spec (n + 1) n (Nat.lt_succ_self n)).1

theorem natDigits_ne_nil (n : ℕ) : natDigits n ≠ [] :=
  (natDigitsGo_spec (n + 1) n (Nat.lt_succ_self n)).2.1

theorem natDigits_mem (n : ℕ) : ∀ c ∈ natDigits n, c ∈ digitChars :=
  (natDigitsGo_spec (n + 1) n (Nat.lt_succ_self n)).2.2

theorem fracDigits_length (k : ℕ) : ∀ n, (fracDigits k n).length = k := by
  induction k with
  | zero => intro n; rfl
  | succ k ih => intro n; simp [fracDigits, ih]

theorem fracDigits_mem (k : ℕ) : ∀ n, ∀ c ∈ fracDigits k n, c ∈ digitChars := by
  induction k with
  | zero => intro n c hc; simp [fracDigits] at hc
  | succ k ih =>
    intro n c hc
    simp only [fracDigits] at hc
    rcases List.mem_append.mp hc with h1 | h2
    · exact ih (n / 10) c h1
    · have hc2 : c = digitChar (n % 10) := by simpa using h2
      rw [hc2]
      exact digitChar_mem _

theorem digitsVal_fracDigits (k : ℕ) : ∀ n, digitsVal (fracDigits k n) = n % 10 ^ k := by
  induction k with
  | zero => intro n; simp [fracDigits, digitsVal, Nat.mod_one]
  | succ k ih =>
    intro n
    simp only [fracDigits]
    rw [digitsVal_append, ih, digitsVal_singleton,
      digitVal_digitChar _ (Nat.mod_lt _ (by omega))]
    simp only [List.length_cons, List.length_nil, pow_one]
    have h1 : (10 : ℕ) ^ (k + 1) = 10 * 10 ^ k := by ring
    have h2 : n % (10 * 10 ^ k) = n % 10 + 10 * (n / 10 % 10 ^ k) := Nat.mod_mul
    rw [h1]
    omega

/-! ## Character-class facts -/

theorem digitChars_sub_numChars : ∀ c ∈ digitChars, c ∈ numChars := by decide

theorem numChars_facts : ∀ c ∈ numChars,
    isPyWs c = false ∧ c ≠ ',' ∧ c ≠ '<' ∧ c ≠ 'L' ∧ c ≠ '(' ∧ c ≠ ')' ∧ c ≠ '"' ∧
      c ≠ 'e' ∧ c ≠ 'E' ∧ c ≠ '[' ∧ c ≠ ']' := by decide

theorem digitChars_facts : ∀ c ∈ digitChars,
    isDig c = true ∧ c ≠ '-' ∧ c ≠ '+' ∧ c ≠ '.' ∧ c ≠ 's' ∧ c ≠ 'c' := by decide

theorem applySign_true (n : ℤ) : applySign true n = -n := rfl

theorem applySign_false (n : ℤ) : applySign false n = n := rfl

theorem pyFloatStr_mem (d : Dec) : ∀ c ∈ pyFloatStr d, c ∈ numChars := by
  intro c hc
  unfold pyFloatStr at hc
  rcases List.mem_append.mp hc with h1 | h2
  · rcases List.mem_append.mp h1 with h1a | h1b
    · by_cases hlt : d.mant < 0
      · rw [if_pos hlt] at h1a
        have hc2 : c = '-' := by simpa using h1a
        rw [hc2]; decide
      · rw [if_neg hlt] at h1a
        simp at h1a
    · exact digitChars_sub_numChars c (natDigits_mem _ c h1b)
  · rcases List.mem_cons.mp h2 with h5 | h6
    · rw [h5]; decide
    · exact digitChars_sub_numChars c (fracDigits_mem _ _ c h6)

theorem intStr_mem (n : ℤ) : ∀ c ∈ intStr n, c ∈ numChars := by
  intro c hc
  unfold intStr at hc
  rcases List.mem_append.mp hc with h1 | h2
  · by_cases hn : n < 0
    · rw [if_pos hn] at h1
      have hc2 : c = '-' := by simpa using h1
      rw [hc2]; decide
    · rw [if_neg hn] at h1
      simp at h1
  · exact digitChars_sub_numChars c (natDigits_mem _ c h2)

/-! ## parseSign and spanDigits -/

theorem parseSign_no_sign (c : Char) (cs : Chars) (h1 : c ≠ '-') (h2 : c ≠ '+') :
    parseSign (c :: cs) = (false, c :: cs) := by
  simp [parseSign, h1, h2]

theorem parseSign_minus (cs : Chars) : parseSign ('-' :: cs) = (true, cs) := by
  simp [parseSign]

theorem spanDigits_split (ds rest : Chars) (hds : ∀ c ∈ ds, isDig c = true)
    (hrest : ∀ c, rest.head? = some c → isDig c = false) :
    spanDigits (ds ++ rest) = (ds, rest) := by
  unfold spanDigits
  cases rest with
  | nil =>
    rw [List.append_nil, takeWhile_all _ _ hds, dropWhile_all _ _ hds]
  | cons r rs =>
    have hr : isDig r = false := hrest r rfl
    rw [takeWhile_append_all _ _ _ hds, dropWhile_append_all _ _ _ hds,
      takeWhile_cons_false _ _ _ hr, dropWhile_cons_false _ _ _ hr, List.append_nil]

/-! ## Round trips through the numeric literal grammar -/

theorem natDigits_uncons (n : ℕ) :
    ∃ c cs, natDigits n = c :: cs ∧ c ∈ digitChars := by
  cases h : natDigits n with
  | nil => exact absurd h (natDigits_ne_nil n)
  | cons c cs =>
    exact ⟨c, cs, rfl, natDigits_mem n c (by rw [h]; exact List.mem_cons_self c cs)⟩

theorem natDigits_isEmpty (n : ℕ) : (natDigits n).isEmpty = false := by
  cases h : natDigits n with
  | nil => exact absurd h (natDigits_ne_nil n)
  | cons c cs => rfl

theorem parseFloatMag_body (ip e fr : ℕ) (hfr : fr < 10 ^ e) :
    parseFloatMag (natDigits ip ++ '.' :: fracDigits e fr)
      = some ⟨((ip * 10 ^ e + fr : ℕ) : ℤ), e⟩ := by
  have hspan1 : spanDigits (natDigits ip ++ '.' :: fracDigits e fr)
      = (natDigits ip, '.' :: fracDigits e fr) := by
    refine spanDigits_split _ _ (fun x hx => (digitChars_facts x (natDigits_mem ip x hx)).1) ?_
    intro x hx
    have hx2 : '.' = x := by simpa using hx
    rw [← hx2]; decide
  have hspan2 : spanDigits (fracDigits e fr) = (fracDigits e fr, []) := by
    have h2 := spanDigits_split (fracDigits e fr) []
      (fun x hx => (digitChars_facts x (fracDigits_mem e fr x hx)).1) (by intro x hx; simp at hx)
    simpa using h2
  unfold parseFloatMag
  rw [hspan1]
  simp only [hspan2, natDigits_isEmpty, Bool.false_and, Bool.false_eq_true, if_false]
  rw [digitsVal_append, digitsVal_natDigits, digitsVal_fracDigits, fracDigits_length,
    Nat.mod_eq_of_lt hfr]

theorem parseFloatCore_no_sign (c : Char) (cs : Chars) (h1 : c ≠ '-') (h2 : c ≠ '+') :
    parseFloatCore (c :: cs) = parseFloatMag (c :: cs) := by
  unfold parseFloatCore
  rw [parseSign_no_sign c cs h1 h2]
  cases h : parseFloatMag (c :: cs) with
  | none => simp [h]
  | some d => simp [h, applySign_false]

theorem parseFloatCore_minus (cs : Chars) :
    parseFloatCore ('-' :: cs) = (parseFloatMag cs).map (fun d => ⟨-d.mant, d.frac⟩) := by
  unfold parseFloatCore
  rw [parseSign_minus]
  cases h : parseFloatMag cs with
  | none => simp [h]
  | some d => simp [h, applySign_true]

theorem parseFloatCore_pyFloatStr (d : Dec) (h : 1 ≤ d.frac) :
    parseFloatCore (pyFloatStr d) = some d := by
  obtain ⟨m, e⟩ := d
  simp only [Dec.frac] at h
  have hexp : Dec.exp10 ⟨m, e⟩ = e := by
    simp only [Dec.exp10]
    omega
  have hsc : Dec.scaled ⟨m, e⟩ = m.natAbs := by
    simp [Dec.scaled, hexp]
  have hfr : m.natAbs % 10 ^ e < 10 ^ e := Nat.mod_lt _ (by positivity)
  have hbody := parseFloatMag_body (m.natAbs / 10 ^ e) e (m.natAbs % 10 ^ e) hfr
  have hdm : m.natAbs / 10 ^ e * 10 ^ e + m.natAbs % 10 ^ e = m.natAbs := by
    rw [Nat.mul_comm]
    exact Nat.div_add_mod _ _
  rw [hdm] at hbody
  obtain ⟨c, cs, hnd, hcd⟩ := natDigits_uncons (m.natAbs / 10 ^ e)
  obtain ⟨_, hc2, hc3, _, _, _⟩ := digitChars_facts c hcd
  unfold pyFloatStr
  rw [hexp, hsc]
  by_cases hm : m < 0
  · rw [if_pos (show Dec.mant ⟨m, e⟩ < 0 from hm), List.cons_append, List.nil_append,
      List.cons_append, parseFloatCore_minus, hbody]
    simp only [Option.map_some', Option.some.injEq, Dec.mk.injEq, and_true]
    omega
  · rw [if_neg (show ¬ Dec.mant ⟨m, e⟩ < 0 from hm), List.nil_append, hnd, List.cons_append,
      parseFloatCore_no_sign c _ hc2 hc3, ← List.cons_append, ← hnd, hbody]
    simp only [Option.some.injEq, Dec.mk.injEq, and_true]
    omega

theorem pyFloat_pyFloatStr (d : Dec) (h : 1 ≤ d.frac) : pyFloat (pyFloatStr d) = .ok d := by
  unfold pyFloat
  rw [pyStrip_eq_self _ (fun c hc => (numChars_facts c (pyFloatStr_mem d c hc)).1),
    parseFloatCore_pyFloatStr d h]

theorem parseIntMag_natDigits (n : ℕ) : parseIntMag (natDigits n) = some (n : ℤ) := by
  have hspan : spanDigits (natDigits n) = (natDigits n, []) := by
    have h2 := spanDigits_split (natDigits n) []
      (fun x hx => (digitChars_facts x (natDigits_mem _ x hx)).1) (by intro x hx; simp at hx)
    simpa using h2
  unfold parseIntMag
  rw [hspan]
  simp only [natDigits_isEmpty, List.isEmpty_nil, Bool.not_true, Bool.or_false,
    Bool.false_eq_true, if_false, Option.some.injEq]
  rw [digitsVal_natDigits]

theorem parseIntCore_no_sign (c : Char) (cs : Chars) (h1 : c ≠ '-') (h2 : c ≠ '+') :
    parseIntCore (c :: cs) = parseIntMag (c :: cs) := by
  unfold parseIntCore
  rw [parseSign_no_sign c cs h1 h2]
  cases h : parseIntMag (c :: cs) with
  | none => simp [h]
  | some d => simp [h, applySign_false]

theorem parseIntCore_minus (cs : Chars) :
    parseIntCore ('-' :: cs) = (parseIntMag cs).map (fun n => -n) := by
  unfold parseIntCore
  rw [parseSign_minus]
  cases h : parseIntMag cs with
  | none => simp [h]
  | some d => simp [h, applySign_true]

theorem parseIntCore_intStr (n : ℤ) : parseIntCore (intStr n) = some n := by
  obtain ⟨c, cs, hnd, hcd⟩ := natDigits_uncons n.natAbs
  obtain ⟨_, hc2, hc3, _, _, _⟩ := digitChars_facts c hcd
  by_cases hm : n < 0
  · unfold intStr
    rw [if_pos hm, List.cons_append, List.nil_append, parseIntCore_minus, parseIntMag_natDigits]
    simp only [Option.map_some', Option.some.injEq]
    omega
  · unfold intStr
    rw [if_neg hm, List.nil_append, hnd, parseIntCore_no_sign c _ hc2 hc3, ← hnd,
      parseIntMag_natDigits]
    simp only [Option.some.injEq]
    omega

theorem pyInt_intStr (n : ℤ) : pyInt (intStr n) = .ok n := by
  unfold pyInt
  rw [pyStrip_eq_self _ (fun c hc => (numChars_facts c (intStr_mem n c hc)).1),
    parseIntCore_intStr n]

theorem intStr_natCast (d : ℕ) : intStr (d : ℤ) = natStr d := by
  unfold intStr natStr
  rw [if_neg (by omega : ¬ (d : ℤ) < 0)]
  simp

theorem pyInt_natStr (d : ℕ) : pyInt (natStr d) = .ok (d : ℤ) := by
  rw [← intStr_natCast]
  exact pyInt_intStr (d : ℤ)

/-! ## Shape enumeration lemmas -/

theorem cartColMajor_length (ds : List ℕ) : (cartColMajor ds).length = ds.prod := by
  induction ds with
  | nil => rfl
  | cons d rest ih =>
    simp only [cartColMajor, List.length_flatMap, Function.comp_def, List.length_map,
      List.length_range, List.prod_cons]
    rw [List.map_const', List.sum_replicate, smul_eq_mul, ih, Nat.mul_comm]

theorem cartRowMajor_length (ds : List ℕ) : (cartRowMajor ds).length = ds.prod := by
  induction ds with
  | nil => rfl
  | cons d rest ih =>
    simp only [cartRowMajor, List.length_flatMap, Function.comp_def, List.length_map,
      List.prod_cons, ih]
    rw [List.map_const', List.sum_replicate, smul_eq_mul, List.length_range]

theorem cmIndex_lt (ds idx : List ℕ) (h : ValidIdx ds idx) : cmIndex ds idx < ds.prod := by
  induction h with
  | nil => simp [cmIndex]
  | cons hdi hrest ih =>
    rename_i d i ds' is'
    simp only [cmIndex, List.prod_cons]
    have h2 : d * (cmIndex ds' is' + 1) ≤ d * ds'.prod := Nat.mul_le_mul_left d ih
    have h3 : d * (cmIndex ds' is' + 1) = d * cmIndex ds' is' + d := by ring
    omega

theorem rmIndex_lt (ds idx : List ℕ) (h : ValidIdx ds idx) : rmIndex ds idx < ds.prod := by
  induction h with
  | nil => simp [rmIndex]
  | cons hdi hrest ih =>
    rename_i d i ds' is'
    simp only [rmIndex, List.prod_cons]
    have h2 : (i + 1) * ds'.prod ≤ d * ds'.prod := Nat.mul_le_mul_right _ hdi
    have h3 : (i + 1) * ds'.prod = i * ds'.prod + ds'.prod := by ring
    omega

theorem get?_flatMap_const {α β : Type} (f : α → List β) (n : ℕ) :
    ∀ (l : List α) (p i : ℕ) (x : α), (∀ y ∈ l, (f y).length = n) → i < n →
      l.get? p = some x → (l.flatMap f).get? (i + n * p) = (f x).get? i := by
  intro l
  induction l with
  | nil => intro p i x _ _ hx; simp at hx
  | cons a rest ih =>
    intro p i x hlen hi hx
    rw [List.flatMap_cons]
    cases p with
    | zero =>
      have hxa : a = x := by simpa using hx
      subst hxa
      rw [Nat.mul_zero, Nat.add_zero]
      exact List.get?_append (by rw [hlen a (List.mem_cons_self a rest)]; exact hi)
    | succ p2 =>
      have hx2 : rest.get? p2 = some x := by simpa using hx
      have hlen2 : (f a).length = n := hlen a (List.mem_cons_self a rest)
      have hge : (f a).length ≤ i + n * (p2 + 1) := by
        rw [hlen2]
        have : n * (p2 + 1) = n * p2 + n := by ring
        omega
      rw [List.get?_append_right hge, hlen2]
      have harith : i + n * (p2 + 1) - n = i + n * p2 := by
        have : n * (p2 + 1) = n * p2 + n := by ring
        omega
      rw [harith]
      exact ih p2 i x (fun y hy => hlen y (List.mem_cons_of_mem a hy)) hi hx2

theorem cartColMajor_get? (ds idx : List ℕ) (h : ValidIdx ds idx) :
    (cartColMajor ds).get? (cmIndex ds idx) = some idx := by
  induction h with
  | nil => rfl
  | cons hdi hrest ih =>
    rename_i d i ds' is'
    simp only [cartColMajor, cmIndex]
    rw [get?_flatMap_const (fun rest => (List.range d).map (fun j => j :: rest)) d
      (cartColMajor ds') (cmIndex ds' is') i is' (fun y _ => by simp) hdi ih]
    rw [List.get?_map, List.get?_range hdi]
    rfl

theorem cartRowMajor_get? (ds idx : List ℕ) (h : ValidIdx ds idx) :
    (cartRowMajor ds).get? (rmIndex ds idx) = some idx := by
  induction h with
  | nil => rfl
  | cons hdi hrest ih =>
    rename_i d i ds' is'
    simp only [cartRowMajor, rmIndex]
    have hlt : rmIndex ds' is' < ds'.prod := rmIndex_lt ds' is' hrest
    have harith : i * ds'.prod + rmIndex ds' is' = rmIndex ds' is' + ds'.prod * i := by ring
    rw [harith]
    rw [get?_flatMap_const (fun j => (cartRowMajor ds').map (fun rest => j :: rest)) ds'.prod
      (List.range d) i (rmIndex ds' is') i
      (fun y _ => by rw [List.length_map, cartRowMajor_length]) hlt (List.get?_range hdi)]
    rw [List.get?_map, ih]
    rfl

theorem cartRowMajor_surj (ds : List ℕ) : ∀ q, q < ds.prod →
    ∃ idx, (cartRowMajor ds).get? q = some idx ∧ ValidIdx ds idx ∧ rmIndex ds idx = q := by
  induction ds with
  | nil =>
    intro q hq
    have hq0 : q = 0 := by simpa using Nat.lt_one_iff.mp (by simpa using hq)
    subst hq0
    exact ⟨[], rfl, List.Forall₂.nil, rfl⟩
  | cons d rest ih =>
    intro q hq
    have hP : 0 < rest.prod := by
      rcases Nat.eq_zero_or_pos rest.prod with h0 | h0
      · rw [List.prod_cons, h0, Nat.mul_zero] at hq
        omega
      · exact h0
    have hq2 : q < d * rest.prod := by rwa [List.prod_cons] at hq
    have hi : q / rest.prod < d := Nat.div_lt_of_lt_mul (by rwa [Nat.mul_comm] at hq2)
    have hr : q % rest.prod < rest.prod := Nat.mod_lt _ hP
    obtain ⟨idx, hget, hval, hrm⟩ := ih (q % rest.prod) hr
    refine ⟨q / rest.prod :: idx, ?_, List.Forall₂.cons hi hval, ?_⟩
    · simp only [cartRowMajor]
      have hmain := get?_flatMap_const (fun j => (cartRowMajor rest).map (fun r => j :: r))
        rest.prod (List.range d) (q / rest.prod) (q % rest.prod) (q / rest.prod)
        (fun y _ => by rw [List.length_map, cartRowMajor_length]) hr (List.get?_range hi)
      have harith : q % rest.prod + rest.prod * (q / rest.prod) = q := Nat.mod_add_div _ _
      rw [harith] at hmain
      rw [hmain, List.get?_map, hget]
      rfl
    · simp only [rmIndex]
      rw [hrm]
      have hdam := Nat.div_add_mod q rest.prod
      have hcomm : q / rest.prod * rest.prod = rest.prod * (q / rest.prod) := Nat.mul_comm _ _
      omega

/-! ## Flatten/reshape round trip -/

theorem colMajorFlatten_length (xs : List Dec) (shape : List ℕ) :
    (colMajorFlatten xs shape).length = shape.prod := by
  unfold colMajorFlatten
  rw [List.length_map, cartColMajor_length]

theorem reshapeF_length (flat : List Dec) (shape : List ℕ) :
    (reshapeF flat shape).length = shape.prod := by
  unfold reshapeF
  rw [List.length_map, cartRowMajor_length]

theorem reshapeF_colMajorFlatten (xs : List Dec) (shape : List ℕ) (h : xs.length = shape.prod) :
    reshapeF (colMajorFlatten xs shape) shape = xs := by
  apply List.ext_get?
  intro q
  by_cases hq : q < shape.prod
  · obtain ⟨idx, hget, hval, hrm⟩ := cartRowMajor_surj shape q hq
    unfold reshapeF
    rw [List.get?_map, hget, Option.map_some']
    unfold colMajorFlatten
    have hcol := cartColMajor_get? shape idx hval
    have hgd : ((cartColMajor shape).map
        (fun idx => xs.getD (rmIndex shape idx) ⟨0, 0⟩)).getD (cmIndex shape idx) ⟨0, 0⟩
        = xs.getD (rmIndex shape idx) ⟨0, 0⟩ := by
      rw [List.getD_eq_get?, List.get?_map, hcol]
      rfl
    rw [hgd, hrm]
    have hqx : q < xs.length := by omega
    rw [List.getD_eq_get?]
    cases hx : xs.get? q with
    | none => exact absurd (List.get?_eq_none.mp hx) (by omega)
    | some v => rfl
  · have h1 : (reshapeF (colMajorFlatten xs shape) shape).get? q = none :=
      List.get?_len_le (by rw [reshapeF_length]; omega)
    have h2 : xs.get? q = none := List.get?_len_le (by omega)
    rw [h1, h2]

theorem colMajorFlatten_single (xs : List Dec) : colMajorFlatten xs [xs.length] = xs := by
  unfold colMajorFlatten
  have h1 : cartColMajor [xs.length] = (List.range xs.length).map (fun i => [i]) := by
    simp [cartColMajor]
  rw [h1, List.map_map]
  apply List.ext_get?
  intro q
  rw [List.get?_map]
  by_cases hq : q < xs.length
  · rw [List.get?_range hq]
    simp only [Option.map_some', Function.comp_apply]
    have h2 : rmIndex [xs.length] [q] = q := by simp [rmIndex]
    rw [h2, List.getD_eq_get?]
    cases hx : xs.get? q with
    | none => exact absurd (List.get?_eq_none.mp hx) (by omega)
    | some v => rfl
  · have hr : (List.range xs.length).get? q = none :=
      List.get?_len_le (by simpa using le_of_not_lt hq)
    rw [hr, List.get?_len_le (le_of_not_lt hq)]
    rfl

/-! ## readAt and loop-step lemmas -/

theorem readAt_nil_of_le (lines : List Chars) (pos : ℕ) (h : lines.length ≤ pos) :
    readAt lines pos = [] := by
  unfold readAt
  rw [List.getD_eq_get?, List.get?_len_le h]
  rfl

theorem scan_config_go_stop (lines : List Chars) (fuel pos lineno : ℕ) (d : Dict)
    (h : ¬ ((pyStrip (readAt lines pos)).length > 0 ∧
      startsHash (pyStrip (readAt lines pos)) = true)) :
    scan_config_go lines fuel pos lineno d = (pos, lineno, d) := by
  cases fuel with
  | zero => rfl
  | succ f => simp only [scan_config_go, if_neg h]

theorem scan_config_go_step (lines : List Chars) (fuel pos lineno : ℕ) (d : Dict)
    (h : (pyStrip (readAt lines pos)).length > 0 ∧
      startsHash (pyStrip (readAt lines pos)) = true) :
    scan_config_go lines (fuel + 1) pos lineno d
      = scan_config_go lines fuel (pos + 1) (lineno + 1)
          (scan_config_line d (pyStrip (readAt lines pos))) := by
  simp only [scan_config_go, if_pos h]

theorem scan_warmup_go_stop (lines : List Chars) (fuel pos lineno : ℕ)
    (h : ¬ ((pyStrip (readAt lines pos)).length > 0 ∧
      startsHash (pyStrip (readAt lines pos)) = false)) :
    scan_warmup_go lines fuel pos lineno = (pos, lineno) := by
  cases fuel with
  | zero => rfl
  | succ f => simp only [scan_warmup_go, if_neg h]

theorem scan_warmup_go_step (lines : List Chars) (fuel pos lineno : ℕ)
    (h : (pyStrip (readAt lines pos)).length > 0 ∧
      startsHash (pyStrip (readAt lines pos)) = false) :
    scan_warmup_go lines (fuel + 1) pos lineno = scan_warmup_go lines fuel (pos + 1) (lineno + 1) := by
  simp only [scan_warmup_go, if_pos h]

/-! ## Dictionary lemmas -/

theorem find?_map_upsert_ne {β : Type} (d : List (Chars × β)) (k k2 : Chars) (v : β)
    (h : k2 ≠ k) :
    (d.map (fun p => if p.1 = k then (k, v) else p)).find? (fun p => decide (p.1 = k2))
      = d.find? (fun p => decide (p.1 = k2)) := by
  induction d with
  | nil => rfl
  | cons p rest ih =>
    by_cases hp : p.1 = k
    · rw [List.map_cons, if_pos hp]
      rw [List.find?_cons_of_neg _ (by simp [Ne.symm h]), List.find?_cons_of_neg _ (by simp [hp, Ne.symm h]), ih]
    · rw [List.map_cons, if_neg hp]
      by_cases hp2 : p.1 = k2
      · rw [List.find?_cons_of_pos _ (by simp [hp2]), List.find?_cons_of_pos _ (by simp [hp2])]
      · rw [List.find?_cons_of_neg _ (by simp [hp2]), List.find?_cons_of_neg _ (by simp [hp2]), ih]

theorem find?_map_upsert_self {β : Type} (d : List (Chars × β)) (k : Chars) (v : β)
    (h : d.any (fun p => decide (p.1 = k)) = true) :
    (d.map (fun p => if p.1 = k then (k, v) else p)).find? (fun p => decide (p.1 = k))
      = some (k, v) := by
  induction d with
  | nil => simp at h
  | cons p rest ih =>
    by_cases hp : p.1 = k
    · rw [List.map_cons, if_pos hp, List.find?_cons_of_pos _ (by simp)]
    · rw [List.map_cons, if_neg hp, List.find?_cons_of_neg _ (by simp [hp])]
      apply ih
      have hfalse : decide (p.1 = k) = false := decide_eq_false hp
      rw [List.any_cons, hfalse, Bool.false_or] at h
      exact h

theorem dictFind_upsert_self {β : Type} (d : List (Chars × β)) (k : Chars) (v : β) :
    dictFind (upsert d k v) k = some v := by
  unfold upsert dictFind
  by_cases h : d.any (fun p => decide (p.1 = k)) = true
  · rw [if_pos h, find?_map_upsert_self d k v h]
    rfl
  · rw [if_neg h, List.find?_append]
    have hnone : d.find? (fun p => decide (p.1 = k)) = none := by
      rw [List.find?_eq_none]
      intro x hx
      simp only [decide_eq_true_eq]
      intro hk
      exact h (List.any_eq_true.mpr ⟨x, hx, by simp [hk]⟩)
    rw [hnone]
    simp

theorem dictFind_upsert_ne {β : Type} (d : List (Chars × β)) (k k2 : Chars) (v : β)
    (h : k2 ≠ k) : dictFind (upsert d k v) k2 = dictFind d k2 := by
  unfold upsert dictFind
  by_cases ha : d.any (fun p => decide (p.1 = k)) = true
  · rw [if_pos ha, find?_map_upsert_ne d k k2 v h]
  · rw [if_neg ha, List.find?_append]
    have h2 : List.find? (fun p => decide (p.1 = k2)) [(k, v)] = none := by
      simp [Ne.symm h]
    rw [h2]
    cases List.find? (fun p => decide (p.1 = k2)) d <;> rfl


/-! ## Claim theorems: C2, C3, C5, C8, C9 -/

/-- C2: `check_csv` never computes `ceil(num_samples / thin) = 334` for a
file with `thin` recorded: the recorded configuration value is the string
`"3"` (`scan_config` stores strings), and `draws_spec / meta['thin']`
divides an `int` by a `str`, raising `TypeError` before any draw-count
comparison.  Evaluated both on the metadata of the claim (`num_samples =
1000`, `thin = 3`, 334 draws) and end-to-end on a complete sampling file
with `thin` recorded. -/
theorem c2_check_csv_thin_string_type_error :
    check_csv_draws [(strC "num_samples", .s (strC "1000")), (strC "thin", .s (strC "3")),
        (strC "draws", .n 334)] false
      = .error (.typeError (strC "unsupported operand types for div: int and str")) ∧
    check_csv (strC "output.csv") thin_csv_file false true
      = .error (.typeError (strC "unsupported operand types for div: int and str")) := by
  exact ⟨by decide, by decide⟩

/-- C3: `_rdump_array` flattens the row-major 2×3 array `[[1,2,3],[4,5,6]]`
in column-major order to `c(1.0, 4.0, 2.0, 5.0, 3.0, 6.0)` with
`.Dim = c(2, 3)`, and `parse_rdump_value` decodes that exact literal back to
the original row-major 2×3 array. -/
theorem c3_rdump_array_column_major :
    _rdump_array (strC "y") [⟨10, 1⟩, ⟨20, 1⟩, ⟨30, 1⟩, ⟨40, 1⟩, ⟨50, 1⟩, ⟨60, 1⟩] [2, 3]
      = strC "y <- structure(c(1.0, 4.0, 2.0, 5.0, 3.0, 6.0), .Dim = c(2, 3))" ∧
    parse_rdump_value (strC "structure(c(1.0, 4.0, 2.0, 5.0, 3.0, 6.0), .Dim = c(2, 3))")
      = .ok (.rarr [⟨10, 1⟩, ⟨20, 1⟩, ⟨30, 1⟩, ⟨40, 1⟩, ⟨50, 1⟩, ⟨60, 1⟩] [2, 3]) := by
  exact ⟨by decide, by decide⟩

/-- C5 counterexample: decoding `c(5)` does NOT yield the same
representation as decoding `5`: the former is a one-element `np.array`, the
latter an `int` scalar; `parse_rdump_value` performs no collapse. -/
theorem c5_counterexample :
    parse_rdump_value (strC "c(5)") = .ok (.rvec [⟨5, 0⟩]) ∧
    parse_rdump_value (strC "5") = .ok (.rint 5) ∧
    parse_rdump_value (strC "c(5)") ≠ parse_rdump_value (strC "5") := by
  exact ⟨by decide, by decide, by decide⟩

/-- C5 (amended): decoding `x <- c(5)` yields the one-element vector
`[5.0]` while `x <- 5` yields the integer scalar `5`; the numeric value 5
is shared (the vector element denotes the rational 5) but the single-element
vector is not collapsed to a scalar. -/
theorem c5_single_element_vector :
    parse_rdump_value (strC "c(5)") = .ok (.rvec [⟨5, 0⟩]) ∧
    parse_rdump_value (strC "5") = .ok (.rint 5) ∧
    Dec.toRat ⟨5, 0⟩ = 5 := by
  refine ⟨by decide, by decide, ?_⟩
  norm_num [Dec.toRat]

/-- C8 counterexample: the comment line `# file = output.csv` is a
`key = value` line not marked `(Default)`, yet `scan_config` records
nothing for it — it is neither stored under `file` nor under `data_file`. -/
theorem c8_counterexample :
    scan_config [strC "# file = output.csv"] 0 0 [] = (1, 1, []) := by
  decide

/-- C8 (amended): for a stripped leading comment line, the `scan_config`
loop body skips lines ending in `(Default)`; records `key = value` lines
under the trimmed key with the trimmed value, except lines whose key is
`file`: those go to `data_file` when the value does not end in `csv`, and
are dropped entirely when it does.  The last conjunct ties the loop body to
`scan_config` itself on a one-line file. -/
theorem c8_scan_config_line_spec (d : Dict) (s k v : Chars)
    (hlen : 0 < s.length) (hh : startsHash s = true) (hstr : pyStrip s = s) :
    (pyEnds (strC "(Default)") s = true → scan_config_line d s = d) ∧
    (pyEnds (strC "(Default)") s = false → splitCh '=' (lstripHash s) = [k, v] →
      ((pyStrip k = strC "file" → pyEnds (strC "csv") v = false →
          scan_config_line d s = upsert d (strC "data_file") (.s (pyStrip v))) ∧
       (pyStrip k = strC "file" → pyEnds (strC "csv") v = true →
          scan_config_line d s = d) ∧
       (pyStrip k ≠ strC "file" →
          scan_config_line d s = upsert d (pyStrip k) (.s (pyStrip v))))) ∧
    scan_config [s] 0 0 d = (1, 1, scan_config_line d s) := by
  refine ⟨?_, ?_, ?_⟩
  · intro hdef
    unfold scan_config_line
    rw [if_pos hdef]
  · intro hdef hkv
    refine ⟨?_, ?_, ?_⟩
    · intro hfile hcsv
      unfold scan_config_line
      rw [if_neg (by rw [hdef]; simp)]
      simp only [hkv]
      rw [if_pos ⟨hfile, hcsv⟩]
    · intro hfile hcsv
      unfold scan_config_line
      rw [if_neg (by rw [hdef]; simp)]
      simp only [hkv]
      rw [if_neg (by rw [hcsv]; simp), if_neg (by simp [hfile])]
    · intro hfile
      unfold scan_config_line
      rw [if_neg (by rw [hdef]; simp)]
      simp only [hkv]
      rw [if_neg (by simp [hfile]), if_pos hfile]
  · have hread0 : readAt [s] 0 = s := rfl
    have hread1 : readAt [s] 1 = [] := rfl
    have e1 : scan_config [s] 0 0 d
        = scan_config_go [s] 2 0 0 d := rfl
    have e2 : scan_config_go [s] 2 0 0 d
        = scan_config_go [s] 1 1 1 (scan_config_line d (pyStrip (readAt [s] 0))) :=
      scan_config_go_step [s] 1 0 0 d (by rw [hread0, hstr]; exact ⟨hlen, hh⟩)
    have e3 : scan_config_go [s] 1 1 1 (scan_config_line d (pyStrip (readAt [s] 0)))
        = (1, 1, scan_config_line d (pyStrip (readAt [s] 0))) := by
      apply scan_config_go_stop
      rw [hread1, pyStrip_nil]
      simp
    rw [e1, e2, e3, hread0, hstr]

/-- C8 witness: instantiation of the loop-body specification on the
concrete lines of the claim. -/
theorem c8_witness :
    scan_config [strC "# data = model.data.R"] 0 0 []
      = (1, 1, [(strC "data", CVal.s (strC "model.data.R"))]) := by
  have h := c8_scan_config_line_spec [] (strC "# data = model.data.R")
    (strC "data ") (strC " model.data.R") (by decide) (by decide) (by decide)
  rw [h.2.2]
  rw [(h.2.1 (by decide) (by decide)).2.2 (by decide)]
  decide

/-- C9: `rload` returns Python `None` for any input whose lines never
contain the assignment marker `<-` — not an empty mapping and not an
error. -/
theorem c9_rload_none (lines : List Chars) (h : ∀ l ∈ lines, hasArrow l = false) :
    rload lines = .ok none := by
  unfold rload
  rw [dropWhile_all _ _ (fun l hl => by rw [h l hl]; rfl)]

/-- C9 witness: concrete marker-free text. -/
theorem c9_witness : rload [strC "x y z", strC "# comment", strC ""] = .ok none := by
  exact c9_rload_none _ (by decide)


theorem splitCh_ne_nil (sep : Char) (cs : Chars) : splitCh sep cs ≠ [] := by
  induction cs with
  | nil => simp [splitCh]
  | cons c rest ih =>
    simp only [splitCh]
    cases h : splitCh sep rest with
    | nil => exact absurd h ih
    | cons g gs =>
      by_cases hc : c = sep
      · simp [hc]
      · simp [hc]

/-! ## scan_metric characterization -/

theorem scan_metric_rows_ok (lines : List Chars) (nparams : ℕ) :
    ∀ (k pos lineno : ℕ),
      (∀ j, j < k → (splitCh ',' (lstripHash (readAt lines (pos + j)))).length = nparams) →
      scan_metric_rows lines k pos lineno nparams = .ok (pos + k, lineno + k) := by
  intro k
  induction k with
  | zero => intro pos lineno _; rfl
  | succ k2 ih =>
    intro pos lineno hall
    simp only [scan_metric_rows]
    rw [if_neg (by
      have h0 := hall 0 (by omega)
      rw [Nat.add_zero] at h0
      simp [h0])]
    rw [ih (pos + 1) (lineno + 1) (fun j hj => by
      have hj2 := hall (j + 1) (by omega)
      rwa [show pos + (j + 1) = pos + 1 + j by omega] at hj2)]
    rw [show pos + 1 + k2 = pos + (k2 + 1) by omega,
      show lineno + 1 + k2 = lineno + (k2 + 1) by omega]

theorem scan_metric_rows_err (lines : List Chars) (nparams : ℕ) :
    ∀ (k pos lineno j : ℕ), j < k →
      (∀ i, i < j → (splitCh ',' (lstripHash (readAt lines (pos + i)))).length = nparams) →
      (splitCh ',' (lstripHash (readAt lines (pos + j)))).length ≠ nparams →
      scan_metric_rows lines k pos lineno nparams
        = .error (.valueError (mass_matrix_msg (lineno + j + 1))) := by
  intro k
  induction k with
  | zero => intro pos lineno j hj _ _; omega
  | succ k2 ih =>
    intro pos lineno j hj hgood hbad
    simp only [scan_metric_rows]
    cases j with
    | zero =>
      rw [Nat.add_zero] at hbad
      rw [if_pos hbad, Nat.add_zero]
    | succ j2 =>
      rw [if_neg (by
        have h0 := hgood 0 (by omega)
        rw [Nat.add_zero] at h0
        simp [h0])]
      rw [ih (pos + 1) (lineno + 1) j2 (by omega)
        (fun i hi => by
          have hi2 := hgood (i + 1) (by omega)
          rwa [show pos + (i + 1) = pos + 1 + i by omega] at hi2)
        (by rwa [show pos + 1 + j2 = pos + (j2 + 1) by omega])]
      rw [show lineno + 1 + j2 + 1 = lineno + (j2 + 1) + 1 by omega]

/-- C6: metric scan of a `dense_e` file.  Given the three header lines in
place (adaptation-terminated comment, parsable step-size comment), the scan
fails if the mass-matrix announcement carries the diagonal label; with the
dense label, where `N` is the comma-field count of the first mass-matrix
row, the scan consumes exactly `N - 1` additional rows and succeeds exactly
when each of them has `N` comma-separated fields, overwriting `num_params`
with `N`; the first offending row (1-based index `j` among the additional
rows) fails the scan with the mass-matrix error naming line
`lineno + 4 + j`. -/
theorem c6_scan_metric_dense (lines : List Chars) (pos lineno : ℕ) (d : Dict)
    (label sv : Chars)
    (hmetric : dictFind d (strC "metric") = some (.s (strC "dense_e")))
    (h1 : pyStrip (readAt lines pos) = strC "# Adaptation terminated")
    (h2 : splitCh '=' (pyStrip (readAt lines (pos + 1))) = [label, sv])
    (h3 : pyStarts (strC "# Step size") label = true)
    (h4 : (pyFloat (pyStrip sv)).isOk = true) :
    (pyStrip (readAt lines (pos + 2)) = strC "# Diagonal elements of inverse mass matrix:" →
      scan_metric lines pos lineno d = .error (.valueError (mass_matrix_msg (lineno + 3)))) ∧
    (pyStrip (readAt lines (pos + 2)) = strC "# Elements of inverse mass matrix:" →
      ∀ N, N = (splitCh ',' (lstripHash (readAt lines (pos + 3)))).length →
        ((∀ j, 1 ≤ j → j < N →
            (splitCh ',' (lstripHash (readAt lines (pos + 3 + j)))).length = N) →
          scan_metric lines pos lineno d
            = .ok (pos + 3 + N, lineno + 3 + N, upsert d (strC "num_params") (.n (N : ℤ)))) ∧
        (∀ j, 1 ≤ j → j < N →
          (∀ i, 1 ≤ i → i < j →
            (splitCh ',' (lstripHash (readAt lines (pos + 3 + i)))).length = N) →
          (splitCh ',' (lstripHash (readAt lines (pos + 3 + j)))).length ≠ N →
          scan_metric lines pos lineno d
            = .error (.valueError (mass_matrix_msg (lineno + 4 + j))))) := by
  have hnotnone : ¬ dictFind d (strC "metric") = none := by rw [hmetric]; simp
  have hnotdiag : ¬ dictFind d (strC "metric") = some (.s (strC "diag_e")) := by
    rw [hmetric]
    intro hcontra
    have : strC "dense_e" = strC "diag_e" := by
      injection hcontra with h
      injection h
    exact absurd this (by decide)
  have hsne : strC "dense_e" = strC "diag_e" ↔ False := by decide
  have hlne : strC "# Diagonal elements of inverse mass matrix:"
      = strC "# Elements of inverse mass matrix:" ↔ False := by decide
  have hlne2 : strC "# Elements of inverse mass matrix:"
      = strC "# Diagonal elements of inverse mass matrix:" ↔ False := by decide
  constructor
  · intro hdiag
    simp only [scan_metric]
    rw [if_neg hnotnone]
    simp only [h1, h2, h3, h4, hmetric, hdiag, hsne, hlne, hlne2, Option.some.injEq,
      CVal.s.injEq]
    simp
  · intro hdense N hN
    have hNpos : 1 ≤ N := by
      rw [hN]
      have := splitCh_ne_nil ',' (lstripHash (readAt lines (pos + 3)))
      cases hsc : splitCh ',' (lstripHash (readAt lines (pos + 3))) with
      | nil => exact absurd hsc this
      | cons a rest => simp
    constructor
    · intro hall
      simp only [scan_metric]
      rw [if_neg hnotnone]
      simp only [h1, h2, h3, h4, hmetric, hdense, hsne, hlne, hlne2, Option.some.injEq,
        CVal.s.injEq]
      simp only [false_and, and_false, true_and, and_true, false_or, or_false, not_false_eq_true,
        not_true, not_not, ne_eq, if_true, if_false, ite_true, ite_false, not_false_iff]
      rw [← hN]
      rw [scan_metric_rows_ok lines N (N - 1) (pos + 4) (lineno + 4) (fun j hj => by
        have hj2 := hall (j + 1) (by omega) (by omega)
        rwa [show pos + 3 + (j + 1) = pos + 4 + j by omega] at hj2)]
      rw [show pos + 4 + (N - 1) = pos + 3 + N by omega,
        show lineno + 4 + (N - 1) = lineno + 3 + N by omega]
      simp only [ne_eq, not_true, Bool.true_eq_false, if_false, ite_false]
      rfl
    · intro j hj1 hjN hgood hbad
      simp only [scan_metric]
      rw [if_neg hnotnone]
      simp only [h1, h2, h3, h4, hmetric, hdense, hsne, hlne, hlne2, Option.some.injEq,
        CVal.s.injEq]
      simp only [false_and, and_false, true_and, and_true, false_or, or_false, not_false_eq_true,
        not_true, not_not, ne_eq, if_true, if_false, ite_true, ite_false, not_false_iff]
      rw [← hN]
      rw [scan_metric_rows_err lines N (N - 1) (pos + 4) (lineno + 4) (j - 1) (by omega)
        (fun i hi => by
          have hi2 := hgood (i + 1) (by omega) (by omega)
          rwa [show pos + 3 + (i + 1) = pos + 4 + i by omega] at hi2)
        (by rwa [show pos + 4 + (j - 1) = pos + 3 + j by omega])]
      rw [show lineno + 4 + (j - 1) + 1 = lineno + 4 + j by omega]
      simp only [ne_eq, not_true, Bool.true_eq_false, if_false, ite_false]
      rfl

/-- C6 witness: a concrete two-parameter dense file exercising all three
branches of the dense-metric specification. -/
theorem c6_witness :
    scan_metric
        [strC "# Adaptation terminated", strC "# Step size = 0.5",
         strC "# Elements of inverse mass matrix:", strC "# 1.0, 0.1", strC "# 0.1, 1.0"]
        0 0 [(strC "metric", .s (strC "dense_e"))]
      = .ok (5, 5, [(strC "metric", .s (strC "dense_e")), (strC "num_params", .n 2)]) := by
  have h := c6_scan_metric_dense
    [strC "# Adaptation terminated", strC "# Step size = 0.5",
     strC "# Elements of inverse mass matrix:", strC "# 1.0, 0.1", strC "# 0.1, 1.0"]
    0 0 [(strC "metric", .s (strC "dense_e"))] (strC "# Step size ") (strC " 0.5")
    (by decide) (by decide) (by decide) (by decide) (by decide)
  have h2 := ((h.2 (by decide) 2 (by decide)).1 (by decide))
  rw [h2]
  decide


/-! ## scan_draws characterization -/

theorem present_lt_length (lines : List Chars) (p : ℕ)
    (h : (pyStrip (readAt lines p)).length > 0) : p < lines.length := by
  by_contra hc
  rw [readAt_nil_of_le lines p (by omega), pyStrip_nil] at h
  simp at h

theorem scan_draws_go_stop (lines : List Chars) (ncols fuel pos lineno draws : ℕ)
    (fd : Option (List Dec))
    (hstop : ¬ ((pyStrip (readAt lines pos)).length > 0 ∧
      startsHash (pyStrip (readAt lines pos)) = false)) :
    scan_draws_go lines ncols fuel pos lineno draws fd = .ok (pos, lineno, draws, fd) := by
  cases fuel with
  | zero => rfl
  | succ f => simp only [scan_draws_go, if_neg hstop]

theorem scan_draws_go_badcount (lines : List Chars) (ncols fuel pos lineno draws : ℕ)
    (fd : Option (List Dec))
    (hp1 : (pyStrip (readAt lines pos)).length > 0)
    (hp2 : startsHash (pyStrip (readAt lines pos)) = false)
    (hbad : (splitCh ',' (pyStrip (readAt lines pos))).length ≠ ncols) :
    scan_draws_go lines ncols (fuel + 1) pos lineno draws fd
      = .error (.valueError (bad_draw_msg (lineno + 1) ncols
          (splitCh ',' (pyStrip (readAt lines pos))).length)) := by
  simp only [scan_draws_go, if_pos (And.intro hp1 hp2), if_pos hbad]

theorem scan_draws_go_first (lines : List Chars) (ncols fuel pos lineno draws : ℕ)
    (xs : List Dec)
    (hok : drawLineOK lines pos ncols)
    (hparse : (splitCh ',' (pyStrip (readAt lines pos))).mapM pyFloat = .ok xs) :
    scan_draws_go lines ncols (fuel + 1) pos lineno draws none
      = scan_draws_go lines ncols fuel (pos + 1) (lineno + 1) (draws + 1) (some xs) := by
  obtain ⟨hp1, hp2, hcount⟩ := hok
  simp only [scan_draws_go, if_pos (And.intro hp1 hp2), hparse]
  rw [if_neg (fun hc => hc hcount)]

theorem scan_draws_go_some (lines : List Chars) (ncols : ℕ) :
    ∀ (n fuel pos lineno draws : ℕ) (xs : List Dec), n < fuel →
      (∀ k, k < n → drawLineOK lines (pos + k) ncols) →
      ¬ ((pyStrip (readAt lines (pos + n))).length > 0 ∧
          startsHash (pyStrip (readAt lines (pos + n))) = false) →
      scan_draws_go lines ncols fuel pos lineno draws (some xs)
        = .ok (pos + n, lineno + n, draws + n, some xs) := by
  intro n
  induction n with
  | zero =>
    intro fuel pos lineno draws xs _ _ hstop
    rw [Nat.add_zero] at hstop
    rw [scan_draws_go_stop lines ncols fuel pos lineno draws (some xs) hstop]
    rfl
  | succ n2 ih =>
    intro fuel pos lineno draws xs hfuel hgood hstop
    cases fuel with
    | zero => omega
    | succ f =>
      obtain ⟨hp1, hp2, hcount⟩ := hgood 0 (by omega)
      rw [Nat.add_zero] at hp1 hp2 hcount
      simp only [scan_draws_go, if_pos (And.intro hp1 hp2)]
      rw [if_neg (fun hc => hc hcount)]
      rw [ih f (pos + 1) (lineno + 1) (draws + 1) xs (by omega)
        (fun k hk => by
          have h2 := hgood (k + 1) (by omega)
          rwa [show pos + (k + 1) = pos + 1 + k by omega] at h2)
        (by rwa [show pos + 1 + n2 = pos + (n2 + 1) by omega])]
      rw [show pos + 1 + n2 = pos + (n2 + 1) by omega,
        show lineno + 1 + n2 = lineno + (n2 + 1) by omega,
        show draws + 1 + n2 = draws + (n2 + 1) by omega]

theorem scan_draws_go_some_err (lines : List Chars) (ncols : ℕ) :
    ∀ (j fuel pos lineno draws : ℕ) (xs : List Dec), j < fuel →
      (∀ k, k < j → drawLineOK lines (pos + k) ncols) →
      (pyStrip (readAt lines (pos + j))).length > 0 →
      startsHash (pyStrip (readAt lines (pos + j))) = false →
      (splitCh ',' (pyStrip (readAt lines (pos + j)))).length ≠ ncols →
      scan_draws_go lines ncols fuel pos lineno draws (some xs)
        = .error (.valueError (bad_draw_msg (lineno + j + 1) ncols
            (splitCh ',' (pyStrip (readAt lines (pos + j)))).length)) := by
  intro j
  induction j with
  | zero =>
    intro fuel pos lineno draws xs hfuel _ hp1 hp2 hbad
    cases fuel with
    | zero => omega
    | succ f =>
      rw [Nat.add_zero] at hp1 hp2 hbad
      rw [scan_draws_go_badcount lines ncols f pos lineno draws (some xs) hp1 hp2 hbad]
      rfl
  | succ j2 ih =>
    intro fuel pos lineno draws xs hfuel hgood hp1 hp2 hbad
    cases fuel with
    | zero => omega
    | succ f =>
      obtain ⟨hq1, hq2, hqcount⟩ := hgood 0 (by omega)
      rw [Nat.add_zero] at hq1 hq2 hqcount
      simp only [scan_draws_go, if_pos (And.intro hq1 hq2)]
      rw [if_neg (fun hc => hc hqcount)]
      rw [ih f (pos + 1) (lineno + 1) (draws + 1) xs (by omega)
        (fun k hk => by
          have h2 := hgood (k + 1) (by omega)
          rwa [show pos + (k + 1) = pos + 1 + k by omega] at h2)
        (by rwa [show pos + 1 + j2 = pos + (j2 + 1) by omega])
        (by rwa [show pos + 1 + j2 = pos + (j2 + 1) by omega])
        (by rwa [show pos + 1 + j2 = pos + (j2 + 1) by omega])]
      rw [show pos + 1 + j2 = pos + (j2 + 1) by omega,
        show lineno + 1 + j2 + 1 = lineno + (j2 + 1) + 1 by omega]

/-- C7: the draw scan.  With the recorded column tuple `cs`:
(i) when the first line already stops the scan (empty or a comment), the
scan records `draws = 0` and `first_draw = None`;
(ii) when `n > 0` consecutive lines are consumable with exactly
`cs.length` fields, the first parses to the float row `xs`, and line
`pos + n` stops the scan, it records `draws = n` and `first_draw = xs`;
(iii) when the first `j` lines are consumable but line `pos + j` is a
non-comment line whose field count differs from `cs.length`, the scan
fails with the error naming the 1-based line number `lineno + j + 1` and
the expected and found counts. -/
theorem c7_scan_draws (lines : List Chars) (pos lineno : ℕ) (d : Dict) (cs : List Chars)
    (hcols : dictFind d (strC "column_names") = some (.names cs)) :
    (¬ ((pyStrip (readAt lines pos)).length > 0 ∧
        startsHash (pyStrip (readAt lines pos)) = false) →
      scan_draws lines pos lineno d
        = .ok (pos, lineno,
            upsert (upsert d (strC "draws") (.n 0)) (strC "first_draw") .pynone)) ∧
    (∀ n xs, 0 < n →
      (∀ k, k < n → drawLineOK lines (pos + k) cs.length) →
      (splitCh ',' (pyStrip (readAt lines pos))).mapM pyFloat = .ok xs →
      ¬ ((pyStrip (readAt lines (pos + n))).length > 0 ∧
          startsHash (pyStrip (readAt lines (pos + n))) = false) →
      scan_draws lines pos lineno d
        = .ok (pos + n, lineno + n,
            upsert (upsert d (strC "draws") (.n (n : ℤ))) (strC "first_draw") (.fdraw xs))) ∧
    (∀ j xs0, (∀ k, k < j → drawLineOK lines (pos + k) cs.length) →
      (0 < j → (splitCh ',' (pyStrip (readAt lines pos))).mapM pyFloat = .ok xs0) →
      (pyStrip (readAt lines (pos + j))).length > 0 →
      startsHash (pyStrip (readAt lines (pos + j))) = false →
      (splitCh ',' (pyStrip (readAt lines (pos + j)))).length ≠ cs.length →
      scan_draws lines pos lineno d
        = .error (.valueError (bad_draw_msg (lineno + j + 1) cs.length
            (splitCh ',' (pyStrip (readAt lines (pos + j)))).length))) := by
  refine ⟨?_, ?_, ?_⟩
  · intro hstop
    simp only [scan_draws, hcols]
    rw [scan_draws_go_stop lines cs.length (lines.length + 1) pos lineno 0 none hstop]
    rfl
  · intro n xs hn hgood hparse hstop
    have hfuel : n ≤ lines.length := by
      have hlast := hgood (n - 1) (by omega)
      have := present_lt_length lines (pos + (n - 1)) hlast.1
      omega
    simp only [scan_draws, hcols]
    rw [scan_draws_go_first lines cs.length lines.length pos lineno 0 xs (hgood 0 (by omega))
      hparse]
    rw [scan_draws_go_some lines cs.length (n - 1) lines.length (pos + 1) (lineno + 1) 1 xs
      (by omega)
      (fun k hk => by
        have h2 := hgood (k + 1) (by omega)
        rwa [show pos + (k + 1) = pos + 1 + k by omega] at h2)
      (by rwa [show pos + 1 + (n - 1) = pos + n by omega])]
    rw [show pos + 1 + (n - 1) = pos + n by omega,
      show lineno + 1 + (n - 1) = lineno + n by omega,
      show 1 + (n - 1) = n by omega]
    rfl
  · intro j xs0 hgood hparse hp1 hp2 hbad
    have hfuel : j ≤ lines.length := by
      have := present_lt_length lines (pos + j) hp1
      omega
    simp only [scan_draws, hcols]
    cases hj : j with
    | zero =>
      subst hj
      rw [Nat.add_zero] at hp1 hp2 hbad
      rw [scan_draws_go_badcount lines cs.length lines.length pos lineno 0 none hp1 hp2 hbad]
      rfl
    | succ j2 =>
      subst hj
      rw [scan_draws_go_first lines cs.length lines.length pos lineno 0 xs0
        (hgood 0 (by omega)) (hparse (by omega))]
      rw [scan_draws_go_some_err lines cs.length j2 lines.length (pos + 1) (lineno + 1) 1 xs0
        (by omega)
        (fun k hk => by
          have h2 := hgood (k + 1) (by omega)
          rwa [show pos + (k + 1) = pos + 1 + k by omega] at h2)
        (by rwa [show pos + 1 + j2 = pos + (j2 + 1) by omega])
        (by rwa [show pos + 1 + j2 = pos + (j2 + 1) by omega])
        (by rwa [show pos + 1 + j2 = pos + (j2 + 1) by omega])]
      rw [show pos + 1 + j2 = pos + (j2 + 1) by omega,
        show lineno + 1 + j2 + 1 = lineno + (j2 + 1) + 1 by omega]
      rfl

/-- C7 witness: a two-column file with two draw rows, then a malformed
third file where the second row has a single field. -/
theorem c7_witness :
    scan_draws [strC "1.0,2.0", strC "3.5,4.5", strC "# done"] 0 0
        [(strC "column_names", .names [strC "a", strC "b"])]
      = .ok (2, 2,
          [(strC "column_names", .names [strC "a", strC "b"]),
           (strC "draws", .n 2), (strC "first_draw", .fdraw [⟨10, 1⟩, ⟨20, 1⟩])]) := by
  have h := (c7_scan_draws [strC "1.0,2.0", strC "3.5,4.5", strC "# done"] 0 0
    [(strC "column_names", .names [strC "a", strC "b"])] [strC "a", strC "b"]
    (by decide)).2.1 2 [⟨10, 1⟩, ⟨20, 1⟩] (by decide)
    (by intro k hk; unfold drawLineOK; interval_cases k <;> exact (by decide))
    (by decide) (by decide)
  rw [h]
  decide


/-! ## num_params through the pipeline -/

/-- C4 counterexample: scanning `c4file` as a sampling file succeeds and
yields three column names but num_params = 4: the mass-matrix field count
overwrote it, no error was raised, and 4 differs from 3 - 1. -/
theorem c4_counterexample :
    (scan_stan_csv c4file true).map
        (fun d => (dictFind d (strC "column_names"), dictFind d (strC "num_params")))
      = .ok (some (.names [strC "lp__", strC "theta", strC "beta"]), some (.n 4))
    ∧ CVal.n 4 ≠ CVal.n (((([strC "lp__", strC "theta", strC "beta"].length : ℕ) - 1 : ℕ) : ℤ)) := by
  decide

theorem scan_draws_keeps (lines : List Chars) (pos lineno : ℕ) (d : Dict) (k : Chars)
    (hk1 : k ≠ strC "draws") (hk2 : k ≠ strC "first_draw")
    (r : ℕ × ℕ × Dict) (h : scan_draws lines pos lineno d = .ok r) :
    dictFind r.2.2 k = dictFind d k := by
  unfold scan_draws at h
  cases hcn : dictFind d (strC "column_names") with
  | none => simp [hcn] at h
  | some v =>
    cases v with
    | names cs =>
      simp only [hcn] at h
      cases hgo : scan_draws_go lines cs.length (lines.length + 1) pos lineno 0 none with
      | error e => rw [hgo] at h; exact absurd h (by simp [Except.map])
      | ok q =>
        rw [hgo] at h
        obtain ⟨p2, l2, dr, fd⟩ := q
        simp only [Except.map, Except.ok.injEq] at h
        rw [← h]
        simp only
        rw [dictFind_upsert_ne _ _ _ _ hk2, dictFind_upsert_ne _ _ _ _ hk1]
    | s v => simp [hcn] at h
    | n v => simp [hcn] at h
    | fdraw v => simp [hcn] at h
    | pynone => simp [hcn] at h

/-- C4 (amended): in a successful non-sampling scan, num_params equals
len(column_names) - 1, both as recorded by the header scan; in the sampling
path, the diag_e metric scan overwrites num_params with the field count of
the first mass-matrix row for an arbitrary incoming dictionary — no
comparison against the recorded column tuple is made and no error can
arise from a mismatch. -/
theorem c4_num_params (lines : List Chars) :
    (∀ d2, scan_stan_csv lines false = .ok d2 →
      ∃ cs, dictFind d2 (strC "column_names") = some (.names cs) ∧
        dictFind d2 (strC "num_params") = some (.n ((cs.length : ℤ) - 1))) ∧
    (∀ (pos lineno : ℕ) (d : Dict) (N : ℕ) (label sv : Chars),
      dictFind d (strC "metric") = some (.s (strC "diag_e")) →
      pyStrip (readAt lines pos) = strC "# Adaptation terminated" →
      splitCh '=' (pyStrip (readAt lines (pos + 1))) = [label, sv] →
      pyStarts (strC "# Step size") label = true →
      (pyFloat (pyStrip sv)).isOk = true →
      pyStrip (readAt lines (pos + 2)) = strC "# Diagonal elements of inverse mass matrix:" →
      N = (splitCh ',' (lstripHash (readAt lines (pos + 3)))).length →
      scan_metric lines pos lineno d
        = .ok (pos + 4, lineno + 4, upsert d (strC "num_params") (.n (N : ℤ)))) := by
  constructor
  · intro d2 h
    rcases hcfg : scan_config lines 0 0 [] with ⟨pos, lineno, d⟩
    simp only [scan_stan_csv, hcfg, scan_column_names, Bool.false_eq_true, if_false,
      ite_false] at h
    rcases hw : scan_warmup lines (pos + 1) (lineno + 1)
        (upsert (upsert d (strC "column_names")
            (.names (splitCh ',' (pyStrip (readAt lines pos))))) (strC "num_params")
          (.n (((splitCh ',' (pyStrip (readAt lines pos))).length : ℤ) - 1)))
      with ⟨pos2, lineno2⟩
    rw [hw] at h
    simp only [bind, Except.bind] at h
    cases hd : scan_draws lines pos2 lineno2
        (upsert (upsert d (strC "column_names")
            (.names (splitCh ',' (pyStrip (readAt lines pos))))) (strC "num_params")
          (.n (((splitCh ',' (pyStrip (readAt lines pos))).length : ℤ) - 1))) with
    | error e => rw [hd] at h; exact absurd h (by simp)
    | ok r =>
      rw [hd] at h
      obtain ⟨p3, l3, d3⟩ := r
      simp only [pure, Except.pure, Except.ok.injEq] at h
      subst h
      refine ⟨splitCh ',' (pyStrip (readAt lines pos)), ?_, ?_⟩
      · have hkeep := scan_draws_keeps lines pos2 lineno2 _ (strC "column_names")
          (by decide) (by decide) (p3, l3, d3) hd
        simp only at hkeep
        rw [hkeep, dictFind_upsert_ne _ _ _ _ (by decide), dictFind_upsert_self]
      · have hkeep := scan_draws_keeps lines pos2 lineno2 _ (strC "num_params")
          (by decide) (by decide) (p3, l3, d3) hd
        simp only at hkeep
        rw [hkeep, dictFind_upsert_self]
  · intro pos lineno d N label sv hmetric h1 h2 h3 h4 h5 hN
    have hnotnone : ¬ dictFind d (strC "metric") = none := by rw [hmetric]; simp
    have hdd : strC "diag_e" = strC "dense_e" ↔ False := by decide
    have hlne : strC "# Diagonal elements of inverse mass matrix:"
        = strC "# Elements of inverse mass matrix:" ↔ False := by decide
    simp only [scan_metric]
    rw [if_neg hnotnone]
    simp only [h1, h2, h3, h4, hmetric, h5, hdd, hlne, Option.some.injEq, CVal.s.injEq]
    simp only [false_and, and_false, true_and, and_true, false_or, or_false, not_false_eq_true,
      not_true, not_not, ne_eq, if_true, if_false, ite_true, ite_false, not_false_iff]
    rw [← hN]
    simp

/-- C4 witness: the non-sampling two-line file records num_params = 1 with
two column names, and the diag_e metric block of `c4file` overwrites
num_params to 4 on a dictionary holding only the metric key. -/
theorem c4_witness :
    (∃ cs, dictFind [(strC "column_names", CVal.names [strC "lp__", strC "theta"]),
          (strC "num_params", CVal.n 1), (strC "draws", CVal.n 1),
          (strC "first_draw", CVal.fdraw [⟨-10, 1⟩, ⟨20, 1⟩])] (strC "column_names")
          = some (.names cs) ∧
        dictFind [(strC "column_names", CVal.names [strC "lp__", strC "theta"]),
          (strC "num_params", CVal.n 1), (strC "draws", CVal.n 1),
          (strC "first_draw", CVal.fdraw [⟨-10, 1⟩, ⟨20, 1⟩])] (strC "num_params")
          = some (.n ((cs.length : ℤ) - 1))) ∧
    scan_metric c4file 2 2 [(strC "metric", .s (strC "diag_e"))]
      = .ok (6, 6, [(strC "metric", .s (strC "diag_e")), (strC "num_params", .n 4)]) := by
  constructor
  · exact (c4_num_params [strC "lp__,theta", strC "-1.0,2.0"]).1
      [(strC "column_names", CVal.names [strC "lp__", strC "theta"]),
       (strC "num_params", CVal.n 1), (strC "draws", CVal.n 1),
       (strC "first_draw", CVal.fdraw [⟨-10, 1⟩, ⟨20, 1⟩])] (by decide)
  · have h := (c4_num_params c4file).2 2 2 [(strC "metric", .s (strC "diag_e"))] 4
      (strC "# Step size ") (strC " 0.5") (by decide) (by decide) (by decide) (by decide)
      (by decide) (by decide) (by decide)
    rw [h]
    decide


/-! ## splitArrow decomposition -/

theorem splitArrow_no_arrow (cs : Chars) (h : '<' ∉ cs) : splitArrow cs = [cs] := by
  induction cs with
  | nil => rfl
  | cons c rest ih =>
    cases rest with
    | nil => rfl
    | cons c2 rs =>
      have hc : ¬ (c = '<' ∧ c2 = '-') := fun hp => h (hp.1 ▸ List.mem_cons_self c (c2 :: rs))
      rw [splitArrow, if_neg hc, ih (fun hm => h (List.mem_cons_of_mem c hm))]

theorem splitArrow_split (a b : Chars) (ha : '<' ∉ a) (hb : '<' ∉ b) :
    splitArrow (a ++ '<' :: '-' :: b) = [a, b] := by
  induction a with
  | nil =>
    rw [List.nil_append, splitArrow, if_pos ⟨rfl, rfl⟩, splitArrow_no_arrow b hb]
  | cons c rest ih =>
    have hc : c ≠ '<' := fun hcc => ha (hcc ▸ List.mem_cons_self c rest)
    have hrest : '<' ∉ rest := fun hm => ha (List.mem_cons_of_mem c hm)
    cases rest with
    | nil =>
      rw [List.cons_append, List.nil_append, splitArrow, if_neg (fun hp => hc hp.1)]
      rw [show splitArrow ('<' :: '-' :: b) = [[], b] from by
        rw [splitArrow, if_pos ⟨rfl, rfl⟩, splitArrow_no_arrow b hb]]
    | cons c2 rs =>
      rw [List.cons_append, List.cons_append, splitArrow, if_neg (fun hp => hc hp.1)]
      rw [show (c2 :: (rs ++ '<' :: '-' :: b) : Chars) = (c2 :: rs) ++ '<' :: '-' :: b from rfl]
      rw [ih hrest]

theorem parseFloatMag_nondigit (c : Char) (rest : Chars) (h1 : isDig c = false)
    (h2 : c ≠ '.') : parseFloatMag (c :: rest) = none := by
  unfold parseFloatMag spanDigits
  rw [takeWhile_cons_false _ _ _ h1, dropWhile_cons_false _ _ _ h1]
  split
  next ds1 cs2 heq =>
    injection heq with h3 h4
    subst h3
    subst h4
    split
    next ds2 cs3 heq2 =>
      split at heq2
      · next r heq3 => exact absurd (List.cons.inj heq3).1 h2
      · next =>
        injection heq2 with h5 h6
        subst h5
        subst h6
        rfl

/-! ## C10: one-element Python lists -/

/-- C10: for an entry whose value is the one-element Python list [v] (with
an arrow-free key), rdump writes the bracketed list repr after the arrow,
not the scalar form, and rload fails on that line: the bracketed
right-hand side reaches the float branch (it contains a dot) and float()
rejects it. -/
theorem c10_singleton_list (k : Chars) (v : Dec) (hk : '<' ∉ k) :
    rdump [(k, PyVal.vlist [v])] = .ok [k ++ strC " <- " ++ pyListRepr [v]] ∧
    rload [k ++ strC " <- " ++ pyListRepr [v]]
      = .error (.valueError (strC "could not convert string to float: " ++ pyListRepr [v])) := by
  have hrepr : pyListRepr [v] = '[' :: (pyFloatStr v ++ [']']) := by
    simp [pyListRepr, joinSep]
  have hclass : ∀ c ∈ '[' :: ']' :: numChars,
      isPyWs c = false ∧ c ≠ 'L' ∧ c ≠ '<' := by decide
  have hmem : ∀ c ∈ pyListRepr [v], c ∈ '[' :: ']' :: numChars := by
    rw [hrepr]; intro c hc
    rcases List.mem_cons.mp hc with h1 | h2
    · simp [h1]
    · rcases List.mem_append.mp h2 with h3 | h4
      · exact List.mem_cons_of_mem _ (List.mem_cons_of_mem _ (pyFloatStr_mem v c h3))
      · simp at h4; simp [h4]
  constructor
  · rfl
  · have hline : k ++ strC " <- " ++ pyListRepr [v]
        = (k ++ [' ']) ++ '<' :: '-' :: (' ' :: pyListRepr [v]) := by
      rw [List.append_assoc, List.append_assoc]
      rfl
    have hsplit : splitArrow (k ++ strC " <- " ++ pyListRepr [v])
        = [k ++ [' '], ' ' :: pyListRepr [v]] := by
      rw [hline]
      refine splitArrow_split _ _ ?_ ?_
      · intro hm
        rcases List.mem_append.mp hm with h1 | h2
        · exact hk h1
        · simp at h2
      · intro hm
        rcases List.mem_cons.mp hm with h1 | h2
        · exact absurd h1.symm (by decide)
        · exact absurd rfl (hclass '<' (hmem '<' h2)).2.2
  -- the line holds an arrow
    have hha : hasArrow (k ++ strC " <- " ++ pyListRepr [v]) = true := by
      simp only [hasArrow, hsplit]
      rfl
    have hstrip : pyStrip (' ' :: pyListRepr [v]) = pyListRepr [v] := by
      refine pyStrip_cons_ws_left _ _ (by decide) ?_ ?_
      · intro x hx
        rw [hrepr] at hx
        simp at hx
        rw [← hx]; decide
      · intro x hx
        rw [hrepr, show ('[' :: (pyFloatStr v ++ [']'])) = ('[' :: pyFloatStr v) ++ [']'] from
          rfl, List.getLast?_concat] at hx
        simp at hx
        rw [← hx]; decide
    have hdel : delChar 'L' (pyListRepr [v]) = pyListRepr [v] := by
      unfold delChar
      refine List.filter_eq_self.mpr ?_
      intro a ha
      have h2 := (hclass a (hmem a ha)).2.1
      simp [h2]
    have hstrip2 : pyStrip (pyListRepr [v]) = pyListRepr [v] :=
      pyStrip_eq_self _ (fun c hc => (hclass c (hmem c hc)).1)
    have hpf : pyFloat (pyListRepr [v])
        = .error (.valueError (strC "could not convert string to float: " ++ pyListRepr [v])) := by
      unfold pyFloat
      rw [hstrip2, hrepr]
      unfold parseFloatCore
      rw [parseSign_no_sign '[' _ (by decide) (by decide)]
      simp only [parseFloatMag_nondigit '[' (pyFloatStr v ++ [']']) (by decide) (by decide)]
    have hdot : ('.' ∈ pyListRepr [v]) := by
      rw [hrepr]
      refine List.mem_cons_of_mem _ (List.mem_append.mpr (Or.inl ?_))
      unfold pyFloatStr
      exact List.mem_append.mpr (Or.inr (List.mem_cons_self _ _))
    have hps1 : pyStarts (strC "structure") (pyListRepr [v]) = false := by
      rw [hrepr]; rfl
    have hps2 : pyStarts (strC "c(") (pyListRepr [v]) = false := by
      rw [hrepr]; rfl
    have hparse : parse_rdump_value (pyListRepr [v])
        = .error (.valueError (strC "could not convert string to float: " ++ pyListRepr [v])) := by
      unfold parse_rdump_value
      rw [hps1, hps2]
      simp only [Bool.false_eq_true, if_false, ite_false, Bool.false_and]
      rw [if_pos (Or.inl hdot)]
      rw [hpf]
      rfl
    have hproc : processStatement [k ++ strC " <- " ++ pyListRepr [v]]
        = .error (.valueError (strC "could not convert string to float: " ++ pyListRepr [v])) := by
      unfold processStatement
      rw [show ([k ++ strC " <- " ++ pyListRepr [v]] : List Chars).flatten
        = k ++ strC " <- " ++ pyListRepr [v] from by simp]
      simp only [hsplit, List.map_cons, List.map_nil]
      rw [hstrip, hdel, hparse]
      rfl
    unfold rload
    rw [dropWhile_cons_false _ _ _ (by rw [hha]; rfl)]
    simp only []
    rw [show rloadGroups [k ++ strC " <- " ++ pyListRepr [v]]
      = [[k ++ strC " <- " ++ pyListRepr [v]]] from rfl]
    rw [List.mapM_cons, hproc]
    rfl

/-- C10 witness: rdump writes x <- [5.0] for the entry (x, [5.0]) and
rload rejects that line. -/
theorem c10_witness :
    rdump [(strC "x", PyVal.vlist [⟨50, 1⟩])] = .ok [strC "x <- [5.0]"] ∧
    rload [strC "x <- [5.0]"]
      = .error (.valueError (strC "could not convert string to float: [5.0]")) := by
  obtain ⟨h1, h2⟩ := c10_singleton_list (strC "x") ⟨50, 1⟩ (by decide)
  constructor
  · rw [h1]; decide
  · rw [show strC "x <- [5.0]" = strC "x" ++ strC " <- " ++ pyListRepr [⟨50, 1⟩] from by decide,
      h2]
    decide


/-! ## Decoder string helpers -/

theorem matchLit_append (lit rest : Chars) : matchLit lit (lit ++ rest) = some rest := by
  unfold matchLit
  rw [if_pos (List.isPrefixOf_iff_prefix.mpr (List.prefix_append lit rest)), List.drop_left]

theorem skipWs_eq_self (cs : Chars) (h : ∀ c, cs.head? = some c → isPyWs c = false) :
    skipWs cs = cs := by
  cases cs with
  | nil => rfl
  | cons c rest => exact dropWhile_cons_false _ _ _ (h c rfl)

theorem skipWs_cons_ws (c : Char) (cs : Chars) (h : isPyWs c = true) :
    skipWs (c :: cs) = skipWs cs := by
  simp [skipWs, List.dropWhile_cons, h]

theorem takeToParen_split (a b : Chars) (ha : ')' ∉ a) :
    takeToParen (a ++ ')' :: b) = (a, ')' :: b) := by
  unfold takeToParen
  have hall : ∀ c ∈ a, (fun c => decide (c ≠ ')')) c = true :=
    fun c hc => decide_eq_true (show c ≠ ')' from fun hc2 => ha (hc2 ▸ hc))
  rw [takeWhile_append_all _ a (')' :: b) hall,
    takeWhile_cons_false _ _ _ (by decide), List.append_nil,
    dropWhile_append_all _ a (')' :: b) hall,
    dropWhile_cons_false _ _ _ (by decide)]

theorem pyEnds_concat (xs : Chars) (c : Char) : pyEnds [c] (xs ++ [c]) = true := by
  simp [pyEnds, List.isSuffixOf, List.isPrefixOf, List.reverse_append]

theorem isPrefixOf_false_head (p c : Char) (ps cs : Chars) (h : p ≠ c) :
    List.isPrefixOf (p :: ps) (c :: cs) = false := by
  simp [List.isPrefixOf, h]

/-! ## splitCh over joined pieces -/

theorem splitCh_no_sep (sep : Char) (cs : Chars) (h : sep ∉ cs) : splitCh sep cs = [cs] := by
  induction cs with
  | nil => rfl
  | cons c rest ih =>
    have hc : c ≠ sep := fun hcc => h (hcc ▸ List.mem_cons_self c rest)
    rw [splitCh, ih (fun hm => h (List.mem_cons_of_mem c hm))]
    change (if c = sep then [] :: rest :: [] else (c :: rest) :: []) = [c :: rest]
    rw [if_neg hc]

theorem splitCh_cons_ne (sep c : Char) (cs : Chars) (h : c ≠ sep) (g : Chars)
    (gs : List Chars) (hs : splitCh sep cs = g :: gs) :
    splitCh sep (c :: cs) = (c :: g) :: gs := by
  rw [splitCh, hs]
  change (if c = sep then [] :: g :: gs else (c :: g) :: gs) = (c :: g) :: gs
  rw [if_neg h]

theorem splitCh_append_sep (a b : Chars) (ha : ',' ∉ a) :
    splitCh ',' (a ++ ',' :: b) = a :: splitCh ',' b := by
  induction a with
  | nil =>
    rw [List.nil_append, splitCh]
    cases hs : splitCh ',' b with
    | nil => exact absurd hs (splitCh_ne_nil ',' b)
    | cons g gs =>
      change (if (',' : Char) = ',' then [] :: g :: gs else (',' :: g) :: gs) = [] :: g :: gs
      rw [if_pos rfl]
  | cons c as ih =>
    have hc : c ≠ ',' := fun hcc => ha (hcc ▸ List.mem_cons_self c as)
    rw [List.cons_append, splitCh_cons_ne ',' c _ hc as (splitCh ',' b)
      (ih (fun hm => ha (List.mem_cons_of_mem c hm)))]

theorem splitCh_joinSep (ps : List Chars) (h : ∀ p ∈ ps, ',' ∉ p) :
    ∀ p, ',' ∉ p → splitCh ',' (joinSep (strC ", ") (p :: ps))
      = p :: ps.map (fun q => ' ' :: q) := by
  induction ps with
  | nil =>
    intro p hp
    rw [show joinSep (strC ", ") [p] = p from rfl, splitCh_no_sep ',' p hp]
    rfl
  | cons q qs ih =>
    intro p hp
    rw [joinSep]
    rw [show (p ++ strC ", ") ++ joinSep (strC ", ") (q :: qs)
      = p ++ ',' :: (' ' :: joinSep (strC ", ") (q :: qs)) from by
        rw [List.append_assoc]
        rfl]
    rw [splitCh_append_sep p _ hp]
    rw [splitCh_cons_ne ',' ' ' _ (by decide) q (qs.map (fun r => ' ' :: r))
      (ih (fun r hr => h r (List.mem_cons_of_mem q hr)) q (h q (List.mem_cons_self q qs)))]
    rfl

/-! ## mapM over uniformly succeeding parses -/

theorem mapM_ok_of_all {ε α β : Type} (f : α → Except ε β) (g : α → β) :
    ∀ l : List α, (∀ x ∈ l, f x = .ok (g x)) → l.mapM f = .ok (l.map g) := by
  intro l
  induction l with
  | nil => intro _; rfl
  | cons a l ih =>
    intro h
    rw [List.mapM_cons, h a (List.mem_cons_self a l),
      ih (fun x hx => h x (List.mem_cons_of_mem a hx))]
    rfl

theorem pyFloat_ws_pyFloatStr (d : Dec) (h : 1 ≤ d.frac) :
    pyFloat (' ' :: pyFloatStr d) = .ok d := by
  unfold pyFloat
  rw [pyStrip_cons_ws _ _ (by decide),
    pyStrip_eq_self _ (fun c hc => (numChars_facts c (pyFloatStr_mem d c hc)).1),
    parseFloatCore_pyFloatStr d h]

theorem pyInt_ws_natStr (d : ℕ) : pyInt (' ' :: natStr d) = .ok (d : ℤ) := by
  unfold pyInt
  rw [pyStrip_cons_ws _ _ (by decide),
    pyStrip_eq_self _ (fun c hc =>
      (numChars_facts c (intStr_mem (d : ℤ) c (intStr_natCast d ▸ hc))).1),
    ← intStr_natCast, parseIntCore_intStr]


/-! ## Decoder dispatch on the encoded right-hand sides -/

theorem mapM_ok_comp {ε α β γ : Type} (f : β → Except ε γ) (h : α → β) (g : α → γ) :
    ∀ l : List α, (∀ x ∈ l, f (h x) = .ok (g x)) → (l.map h).mapM f = .ok (l.map g) := by
  intro l
  induction l with
  | nil => intro _; rfl
  | cons a l ih =>
    intro hx
    rw [List.map_cons, List.mapM_cons, hx a (List.mem_cons_self a l),
      ih (fun x h2 => hx x (List.mem_cons_of_mem a h2))]
    rfl

theorem pyStarts_num_false (cs : Chars) (hne : cs ≠ []) (hmem : ∀ c ∈ cs, c ∈ numChars) :
    pyStarts (strC "structure") cs = false ∧ pyStarts (strC "c(") cs = false := by
  cases cs with
  | nil => exact absurd rfl hne
  | cons c0 r =>
    have h0 := hmem c0 (List.mem_cons_self c0 r)
    have hfacts : ∀ c ∈ numChars, c ≠ 's' ∧ c ≠ 'c' := by decide
    constructor
    · rw [show strC "structure" = 's' :: strC "tructure" from rfl]
      exact isPrefixOf_false_head _ _ _ _ (fun he => (hfacts c0 h0).1 he.symm)
    · rw [show strC "c(" = 'c' :: strC "(" from rfl]
      exact isPrefixOf_false_head _ _ _ _ (fun he => (hfacts c0 h0).2 he.symm)

/-- The decoder on an encoded int scalar. -/
theorem parse_int_line (n : ℤ) : parse_rdump_value (intStr n) = .ok (.rint n) := by
  have hne : intStr n ≠ [] := by
    unfold intStr
    intro hcon
    rcases List.append_eq_nil.mp hcon with ⟨_, h2⟩
    exact natDigits_ne_nil _ h2
  obtain ⟨hs1, hs2⟩ := pyStarts_num_false (intStr n) hne (intStr_mem n)
  have hdchars : ∀ c ∈ digitChars, c ≠ '.' ∧ c ≠ 'e' := by decide
  have hm : ∀ x ∈ intStr n, x ≠ '.' ∧ x ≠ 'e' := by
    intro x hx
    unfold intStr at hx
    rcases List.mem_append.mp hx with h1 | h2
    · by_cases hn : n < 0
      · rw [if_pos hn] at h1
        simp at h1
        subst h1
        exact ⟨by decide, by decide⟩
      · rw [if_neg hn] at h1
        simp at h1
    · exact hdchars x (natDigits_mem _ x h2)
  have hdot : ¬ ('.' ∈ intStr n ∨ 'e' ∈ intStr n) := by
    intro hcon
    rcases hcon with h | h
    · exact (hm '.' h).1 rfl
    · exact (hm 'e' h).2 rfl
  unfold parse_rdump_value
  rw [hs1, hs2]
  simp only [Bool.false_eq_true, if_false, ite_false, Bool.false_and]
  rw [if_neg hdot, pyInt_intStr]
  rfl

/-- The decoder on an encoded float scalar. -/
theorem parse_float_line (d : Dec) (h : 1 ≤ d.frac) :
    parse_rdump_value (pyFloatStr d) = .ok (.rfloat d) := by
  have hne : pyFloatStr d ≠ [] := by
    unfold pyFloatStr
    intro hcon
    rcases List.append_eq_nil.mp hcon with ⟨_, h2⟩
    simp at h2
  obtain ⟨hs1, hs2⟩ := pyStarts_num_false (pyFloatStr d) hne (pyFloatStr_mem d)
  have hdot : ('.' ∈ pyFloatStr d ∨ 'e' ∈ pyFloatStr d) := Or.inl (by
    unfold pyFloatStr
    exact List.mem_append.mpr (Or.inr (List.mem_cons_self _ _)))
  unfold parse_rdump_value
  rw [hs1, hs2]
  simp only [Bool.false_eq_true, if_false, ite_false, Bool.false_and]
  rw [if_pos hdot, pyFloat_pyFloatStr d h]
  rfl

/-- The decoder on an encoded c(...) vector. -/
theorem parse_vec_line (xs : List Dec) (hne : xs ≠ []) (hfr : ∀ x ∈ xs, 1 ≤ x.frac) :
    parse_rdump_value (strC "c(" ++ (joinSep (strC ", ") (xs.map pyFloatStr) ++ [')']))
      = .ok (.rvec xs) := by
  obtain ⟨x0, xr, rfl⟩ := List.exists_cons_of_ne_nil hne
  have hnocomma : ∀ p ∈ (x0 :: xr).map pyFloatStr, ',' ∉ p := by
    intro p hp
    simp only [List.mem_map] at hp
    obtain ⟨d2, _, rfl⟩ := hp
    intro hcm
    exact absurd rfl ((numChars_facts ',' (pyFloatStr_mem d2 ',' hcm)).2.1)
  have hsplit : splitCh ',' (joinSep (strC ", ") ((x0 :: xr).map pyFloatStr))
      = pyFloatStr x0 :: (xr.map pyFloatStr).map (fun q => ' ' :: q) := by
    rw [List.map_cons]
    exact splitCh_joinSep (xr.map pyFloatStr)
      (fun p hp => hnocomma p (List.mem_cons_of_mem _ hp)) (pyFloatStr x0)
      (hnocomma _ (List.mem_cons_self _ _))
  have hmapM : (splitCh ',' (joinSep (strC ", ") ((x0 :: xr).map pyFloatStr))).mapM pyFloat
      = .ok (x0 :: xr) := by
    rw [hsplit, List.mapM_cons, pyFloat_pyFloatStr x0 (hfr x0 (List.mem_cons_self _ _)),
      List.map_map]
    simp only [Function.comp_def]
    rw [mapM_ok_comp pyFloat (fun q => ' ' :: pyFloatStr q) (fun q => q) xr
      (fun q hq => pyFloat_ws_pyFloatStr q (hfr q (List.mem_cons_of_mem _ hq)))]
    rw [show (xr.map fun q => q) = xr from List.map_id' xr]
    rfl
  have hs1 : pyStarts (strC "structure")
      (strC "c(" ++ (joinSep (strC ", ") ((x0 :: xr).map pyFloatStr) ++ [')'])) = false := by
    rw [show strC "c(" ++ (joinSep (strC ", ") ((x0 :: xr).map pyFloatStr) ++ [')'])
        = 'c' :: ('(' :: (joinSep (strC ", ") ((x0 :: xr).map pyFloatStr) ++ [')'])) from rfl,
      show strC "structure" = 's' :: strC "tructure" from rfl]
    exact isPrefixOf_false_head _ _ _ _ (by decide)
  have hs2 : pyStarts (strC "c(")
      (strC "c(" ++ (joinSep (strC ", ") ((x0 :: xr).map pyFloatStr) ++ [')'])) = true :=
    List.isPrefixOf_iff_prefix.mpr (List.prefix_append _ _)
  have hs3 : pyEnds [')']
      (strC "c(" ++ (joinSep (strC ", ") ((x0 :: xr).map pyFloatStr) ++ [')'])) = true := by
    rw [show strC "c(" ++ (joinSep (strC ", ") ((x0 :: xr).map pyFloatStr) ++ [')'])
        = (strC "c(" ++ joinSep (strC ", ") ((x0 :: xr).map pyFloatStr)) ++ [')'] from by
      rw [List.append_assoc]]
    exact pyEnds_concat _ _
  unfold parse_rdump_value
  rw [hs1]
  simp only [Bool.false_eq_true, if_false, ite_false]
  rw [hs2, hs3]
  simp only [Bool.and_self, if_true, ite_true]
  rw [show (strC "c(" ++ (joinSep (strC ", ") ((x0 :: xr).map pyFloatStr) ++ [')'])).drop 2
    = joinSep (strC ", ") ((x0 :: xr).map pyFloatStr) ++ [')'] from rfl]
  rw [List.dropLast_concat, hmapM]
  rfl


/-! ## The structure(...) regex on encoded arrays -/

theorem joinSep_not_mem (sep : Chars) (x : Char) (hsep : x ∉ sep) :
    ∀ ps : List Chars, (∀ p ∈ ps, x ∉ p) → x ∉ joinSep sep ps := by
  intro ps
  induction ps with
  | nil => intro _; simp [joinSep]
  | cons p qs ih =>
    intro h
    cases qs with
    | nil => simpa [joinSep] using h p (List.mem_cons_self p [])
    | cons q rs =>
      rw [joinSep]
      intro hm
      rcases List.mem_append.mp hm with h1 | h2
      · rcases List.mem_append.mp h1 with h1a | h1b
        · exact h p (List.mem_cons_self _ _) h1a
        · exact hsep h1b
      · exact ih (fun r hr => h r (List.mem_cons_of_mem p hr)) h2

theorem cartColMajor_valid (ds : List ℕ) : ∀ idx ∈ cartColMajor ds, ValidIdx ds idx := by
  induction ds with
  | nil =>
    intro idx h
    simp [cartColMajor] at h
    subst h
    exact List.Forall₂.nil
  | cons d ds ih =>
    intro idx h
    simp only [cartColMajor, List.mem_flatMap, List.mem_map] at h
    obtain ⟨rest, hrest, i, hi, rfl⟩ := h
    exact List.Forall₂.cons (List.mem_range.mp hi) (ih rest hrest)

theorem colMajorFlatten_mem (xs : List Dec) (shape : List ℕ) (h : xs.length = shape.prod) :
    ∀ d ∈ colMajorFlatten xs shape, d ∈ xs := by
  intro d hd
  unfold colMajorFlatten at hd
  simp only [List.mem_map] at hd
  obtain ⟨idx, hidx, rfl⟩ := hd
  have hlt : rmIndex shape idx < xs.length :=
    h ▸ rmIndex_lt shape idx (cartColMajor_valid shape idx hidx)
  rw [List.getD_eq_get? , List.get?_eq_get hlt]
  exact List.get_mem _ _ _

theorem structMatch_eval (V D : Chars) (hV : ')' ∉ V) (hD : ')' ∉ D) :
    structMatch (strC "structure(c("
        ++ (V ++ (strC "), .Dim = c(" ++ (D ++ strC "))"))))
      = some (V, some D) := by
  have h1 : matchLit (strC "structure(")
      (strC "structure(c(" ++ (V ++ (strC "), .Dim = c(" ++ (D ++ strC "))"))))
      = some (strC "c(" ++ (V ++ (strC "), .Dim = c(" ++ (D ++ strC "))")))) := by
    rw [show strC "structure(c(" ++ (V ++ (strC "), .Dim = c(" ++ (D ++ strC "))")))
      = strC "structure(" ++ (strC "c(" ++ (V ++ (strC "), .Dim = c(" ++ (D ++ strC "))"))))
      from rfl]
    exact matchLit_append _ _
  have hsw1 : skipWs (strC "c(" ++ (V ++ (strC "), .Dim = c(" ++ (D ++ strC "))"))))
      = strC "c(" ++ (V ++ (strC "), .Dim = c(" ++ (D ++ strC "))"))) := by
    refine skipWs_eq_self _ ?_
    intro c hc
    rw [show (strC "c(" ++ (V ++ (strC "), .Dim = c(" ++ (D ++ strC "))")))).head?
      = some 'c' from rfl] at hc
    injection hc with hc
    rw [← hc]; decide
  have h2 : matchLit (strC "c(") (strC "c(" ++ (V ++ (strC "), .Dim = c(" ++ (D ++ strC "))"))))
      = some (V ++ (strC "), .Dim = c(" ++ (D ++ strC "))"))) := matchLit_append _ _
  have htp1 : takeToParen (V ++ (strC "), .Dim = c(" ++ (D ++ strC "))")))
      = (V, ')' :: (strC ", .Dim = c(" ++ (D ++ strC "))"))) := by
    rw [show (V ++ (strC "), .Dim = c(" ++ (D ++ strC "))")) : Chars)
      = V ++ ')' :: (strC ", .Dim = c(" ++ (D ++ strC "))")) from rfl]
    exact takeToParen_split _ _ hV
  have h3 : matchLit [')'] (')' :: (strC ", .Dim = c(" ++ (D ++ strC "))")))
      = some (strC ", .Dim = c(" ++ (D ++ strC "))")) := by
    rw [show (')' :: (strC ", .Dim = c(" ++ (D ++ strC "))")) : Chars)
      = [')'] ++ (strC ", .Dim = c(" ++ (D ++ strC "))")) from rfl]
    exact matchLit_append _ _
  have hcm : matchLit [','] (strC ", .Dim = c(" ++ (D ++ strC "))"))
      = some (strC " .Dim = c(" ++ (D ++ strC "))")) := by
    rw [show (strC ", .Dim = c(" ++ (D ++ strC "))") : Chars)
      = [','] ++ (strC " .Dim = c(" ++ (D ++ strC "))")) from rfl]
    exact matchLit_append _ _
  have hsw2 : skipWs (strC " .Dim = c(" ++ (D ++ strC "))"))
      = strC ".Dim = c(" ++ (D ++ strC "))") := by
    rw [show (strC " .Dim = c(" ++ (D ++ strC "))") : Chars)
      = ' ' :: (strC ".Dim = c(" ++ (D ++ strC "))")) from rfl,
      skipWs_cons_ws _ _ (by decide)]
    refine skipWs_eq_self _ ?_
    intro c hc
    rw [show (strC ".Dim = c(" ++ (D ++ strC "))")).head? = some '.' from rfl] at hc
    injection hc with hc
    rw [← hc]; decide
  have hDim : matchLit (strC ".Dim") (strC ".Dim = c(" ++ (D ++ strC "))"))
      = some (strC " = c(" ++ (D ++ strC "))")) := by
    rw [show (strC ".Dim = c(" ++ (D ++ strC "))") : Chars)
      = strC ".Dim" ++ (strC " = c(" ++ (D ++ strC "))")) from rfl]
    exact matchLit_append _ _
  have hsw3 : skipWs (strC " = c(" ++ (D ++ strC "))")) = strC "= c(" ++ (D ++ strC "))") := by
    rw [show (strC " = c(" ++ (D ++ strC "))") : Chars)
      = ' ' :: (strC "= c(" ++ (D ++ strC "))")) from rfl,
      skipWs_cons_ws _ _ (by decide)]
    refine skipWs_eq_self _ ?_
    intro c hc
    rw [show (strC "= c(" ++ (D ++ strC "))")).head? = some '=' from rfl] at hc
    injection hc with hc
    rw [← hc]; decide
  have hEq : matchLit ['='] (strC "= c(" ++ (D ++ strC "))"))
      = some (strC " c(" ++ (D ++ strC "))")) := by
    rw [show (strC "= c(" ++ (D ++ strC "))") : Chars)
      = ['='] ++ (strC " c(" ++ (D ++ strC "))")) from rfl]
    exact matchLit_append _ _
  have hsw4 : skipWs (strC " c(" ++ (D ++ strC "))")) = strC "c(" ++ (D ++ strC "))") := by
    rw [show (strC " c(" ++ (D ++ strC "))") : Chars)
      = ' ' :: (strC "c(" ++ (D ++ strC "))")) from rfl,
      skipWs_cons_ws _ _ (by decide)]
    refine skipWs_eq_self _ ?_
    intro c hc
    rw [show (strC "c(" ++ (D ++ strC "))")).head? = some 'c' from rfl] at hc
    injection hc with hc
    rw [← hc]; decide
  have hc2 : matchLit ['c'] (strC "c(" ++ (D ++ strC "))"))
      = some (strC "(" ++ (D ++ strC "))")) := by
    rw [show (strC "c(" ++ (D ++ strC "))") : Chars)
      = ['c'] ++ (strC "(" ++ (D ++ strC "))")) from rfl]
    exact matchLit_append _ _
  have hsw5 : skipWs (strC "(" ++ (D ++ strC "))")) = strC "(" ++ (D ++ strC "))") := by
    refine skipWs_eq_self _ ?_
    intro c hc
    rw [show (strC "(" ++ (D ++ strC "))")).head? = some '(' from rfl] at hc
    injection hc with hc
    rw [← hc]; decide
  have hpar : matchLit ['('] (strC "(" ++ (D ++ strC "))")) = some (D ++ strC "))") := by
    rw [show (strC "(" ++ (D ++ strC "))") : Chars) = ['('] ++ (D ++ strC "))") from rfl]
    exact matchLit_append _ _
  have htp2 : takeToParen (D ++ strC "))") = (D, ')' :: [')']) := by
    rw [show (D ++ strC "))" : Chars) = D ++ ')' :: [')'] from rfl]
    exact takeToParen_split _ _ hD
  have hrp1 : matchLit [')'] (')' :: [')']) = some [')'] := rfl
  have hrp2 : matchLit [')'] ([')'] : Chars) = some [] := rfl
  simp only [structMatch, h1, hsw1, h2, htp1, h3, hcm, hsw2, hDim, hsw3, hEq, hsw4, hc2,
    hsw5, hpar, htp2, hrp1, hrp2, Option.bind, bind, pure]


/-- The decoder on an encoded multi-dimensional array: the column-major
flattened values with the .Dim attribute come back as the original
row-major data reshaped in Fortran order — the original array. -/
theorem parse_struct_line (xs : List Dec) (shape : List ℕ)
    (hlen : xs.length = shape.prod) (hxs : xs ≠ []) (hshape : shape ≠ [])
    (hfr : ∀ x ∈ xs, 1 ≤ x.frac) :
    parse_rdump_value (strC "structure(c("
        ++ (joinSep (strC ", ") ((colMajorFlatten xs shape).map pyFloatStr)
          ++ (strC "), .Dim = c(" ++ (joinSep (strC ", ") (shape.map natStr) ++ strC "))"))))
      = .ok (.rarr xs shape) := by
  have hflatne : colMajorFlatten xs shape ≠ [] := by
    intro hcon
    have h2 := colMajorFlatten_length xs shape
    rw [hcon] at h2
    have h3 : xs.length = 0 := by rw [hlen, ← h2]; rfl
    exact hxs (List.eq_nil_of_length_eq_zero h3)
  have hfr2 : ∀ x ∈ colMajorFlatten xs shape, 1 ≤ x.frac :=
    fun x hx => hfr x (colMajorFlatten_mem xs shape hlen x hx)
  have hnc : ∀ c ∈ numChars, c ≠ ')' ∧ c ≠ ',' := by decide
  have hdg : ∀ c ∈ digitChars, c ≠ ')' ∧ c ≠ ',' := by decide
  have hVnp : ')' ∉ joinSep (strC ", ") ((colMajorFlatten xs shape).map pyFloatStr) := by
    refine joinSep_not_mem _ _ (by decide) _ ?_
    intro p hp
    simp only [List.mem_map] at hp
    obtain ⟨d2, _, rfl⟩ := hp
    intro hcm
    exact (hnc ')' (pyFloatStr_mem d2 ')' hcm)).1 rfl
  have hDnp : ')' ∉ joinSep (strC ", ") (shape.map natStr) := by
    refine joinSep_not_mem _ _ (by decide) _ ?_
    intro p hp
    simp only [List.mem_map] at hp
    obtain ⟨s2, _, rfl⟩ := hp
    intro hcm
    exact (hdg ')' (natDigits_mem s2 ')' hcm)).1 rfl
  have hps : pyStarts (strC "structure")
      (strC "structure(c("
        ++ (joinSep (strC ", ") ((colMajorFlatten xs shape).map pyFloatStr)
          ++ (strC "), .Dim = c(" ++ (joinSep (strC ", ") (shape.map natStr) ++ strC "))"))))
      = true := by
    rw [show (strC "structure(c("
        ++ (joinSep (strC ", ") ((colMajorFlatten xs shape).map pyFloatStr)
          ++ (strC "), .Dim = c(" ++ (joinSep (strC ", ") (shape.map natStr) ++ strC "))")))
        : Chars)
      = strC "structure" ++ (strC "(c("
        ++ (joinSep (strC ", ") ((colMajorFlatten xs shape).map pyFloatStr)
          ++ (strC "), .Dim = c(" ++ (joinSep (strC ", ") (shape.map natStr) ++ strC "))"))))
      from rfl]
    exact List.isPrefixOf_iff_prefix.mpr (List.prefix_append _ _)
  obtain ⟨f0, fr, hflat⟩ := List.exists_cons_of_ne_nil hflatne
  have hVsplit : splitCh ','
      (joinSep (strC ", ") ((colMajorFlatten xs shape).map pyFloatStr))
      = pyFloatStr f0 :: (fr.map pyFloatStr).map (fun q => ' ' :: q) := by
    rw [hflat, List.map_cons]
    refine splitCh_joinSep (fr.map pyFloatStr) ?_ (pyFloatStr f0) ?_
    · intro p hp
      simp only [List.mem_map] at hp
      obtain ⟨d2, _, rfl⟩ := hp
      intro hcm
      exact (hnc ',' (pyFloatStr_mem d2 ',' hcm)).2 rfl
    · intro hcm
      exact (hnc ',' (pyFloatStr_mem f0 ',' hcm)).2 rfl
  have hVmapM : (splitCh ','
      (joinSep (strC ", ") ((colMajorFlatten xs shape).map pyFloatStr))).mapM pyFloat
      = .ok (colMajorFlatten xs shape) := by
    rw [hVsplit, List.mapM_cons,
      pyFloat_pyFloatStr f0 (hfr2 f0 (hflat ▸ List.mem_cons_self f0 fr)), List.map_map]
    simp only [Function.comp_def]
    rw [mapM_ok_comp pyFloat (fun q => ' ' :: pyFloatStr q) (fun q => q) fr
      (fun q hq => pyFloat_ws_pyFloatStr q (hfr2 q (hflat ▸ List.mem_cons_of_mem f0 hq)))]
    rw [show (fr.map fun q => q) = fr from List.map_id' fr, hflat]
    rfl
  obtain ⟨s0, sr, hsh⟩ := List.exists_cons_of_ne_nil hshape
  have hDsplit : splitCh ',' (joinSep (strC ", ") (shape.map natStr))
      = natStr s0 :: (sr.map natStr).map (fun q => ' ' :: q) := by
    rw [hsh, List.map_cons]
    refine splitCh_joinSep (sr.map natStr) ?_ (natStr s0) ?_
    · intro p hp
      simp only [List.mem_map] at hp
      obtain ⟨s2, _, rfl⟩ := hp
      intro hcm
      exact (hdg ',' (natDigits_mem s2 ',' hcm)).2 rfl
    · intro hcm
      exact (hdg ',' (natDigits_mem s0 ',' hcm)).2 rfl
  have hDmapM : (splitCh ',' (joinSep (strC ", ") (shape.map natStr))).mapM pyInt
      = .ok (shape.map (fun (s : ℕ) => (s : ℤ))) := by
    rw [hDsplit, List.mapM_cons, pyInt_natStr s0, List.map_map]
    simp only [Function.comp_def]
    rw [mapM_ok_comp pyInt (fun q => ' ' :: natStr q) (fun (s : ℕ) => (s : ℤ)) sr
      (fun q _ => pyInt_ws_natStr q)]
    rw [hsh]
    rfl
  have hneg : (shape.map (fun (s : ℕ) => (s : ℤ))).any (fun d => decide (d < 0)) = false := by
    rw [List.any_eq_false]
    intro x hx
    simp only [List.mem_map] at hx
    obtain ⟨s2, _, rfl⟩ := hx
    simp only [decide_eq_true_eq]
    exact not_lt.mpr (Int.natCast_nonneg s2)
  have htonat : (shape.map (fun (s : ℕ) => (s : ℤ))).map Int.toNat = shape := by
    rw [List.map_map]
    simp [Function.comp_def, Int.toNat_natCast]
  have hprodlen : ¬ shape.prod
      ≠ (colMajorFlatten xs shape).length := by
    rw [colMajorFlatten_length]
    exact fun hcon => hcon rfl
  unfold parse_rdump_value
  rw [hps]
  simp only [structMatch_eval _ _ hVnp hDnp, hVmapM, hDmapM, hneg, htonat,
    Except.bind, bind, pure, Bool.false_eq_true, if_false, ite_false, if_true, ite_true]
  rw [if_neg hprodlen, reshapeF_colMajorFlatten xs shape hlen]
  rfl


/-! ## Decoding one encoded statement line -/

theorem joinSep_subset (sep : Chars) (P : Char → Prop) (hsep : ∀ c ∈ sep, P c) :
    ∀ ps : List Chars, (∀ p ∈ ps, ∀ c ∈ p, P c) → ∀ c ∈ joinSep sep ps, P c := by
  intro ps
  induction ps with
  | nil =>
    intro _ c hc
    simp [joinSep] at hc
  | cons p qs ih =>
    intro h c hc
    cases qs with
    | nil => exact h p (List.mem_cons_self p []) c (by simpa [joinSep] using hc)
    | cons q rs =>
      rw [joinSep] at hc
      rcases List.mem_append.mp hc with h1 | h2
      · rcases List.mem_append.mp h1 with h1a | h1b
        · exact h p (List.mem_cons_self _ _) c h1a
        · exact hsep c h1b
      · exact ih (fun r hr => h r (List.mem_cons_of_mem p hr)) c h2

theorem rhsPool_facts : ∀ c ∈ rhsPool,
    c ≠ '<' ∧ c ≠ 'L' ∧ c ≠ '"' := by decide

/-- Splitting and stripping an encoded line `key <- rhs` recovers the key
and hands the right-hand side to the value parser. -/
theorem processStatement_encoded (k R : Chars)
    (hk1 : k ≠ []) (hkid : ∀ c ∈ k, c ∈ identChars)
    (hR1 : '<' ∉ R) (hRL : 'L' ∉ R)
    (hRh : ∀ c, R.head? = some c → isPyWs c = false)
    (hRl : ∀ c, R.getLast? = some c → isPyWs c = false) :
    processStatement [k ++ strC " <- " ++ R]
      = (parse_rdump_value R).map (fun v => (k, v)) ∧
    hasArrow (k ++ strC " <- " ++ R) = true := by
  have hic : ∀ c ∈ identChars, isPyWs c = false ∧ c ≠ '<' ∧ c ≠ '"' := by decide
  have hline : k ++ strC " <- " ++ R = (k ++ [' ']) ++ '<' :: '-' :: (' ' :: R) := by
    rw [List.append_assoc, List.append_assoc]
    rfl
  have hsplit : splitArrow (k ++ strC " <- " ++ R) = [k ++ [' '], ' ' :: R] := by
    rw [hline]
    refine splitArrow_split _ _ ?_ ?_
    · intro hm
      rcases List.mem_append.mp hm with h1 | h2
      · exact (hic '<' (hkid '<' h1)).2.1 rfl
      · simp at h2
    · intro hm
      rcases List.mem_cons.mp hm with h1 | h2
      · exact absurd h1.symm (by decide)
      · exact hR1 h2
  have hha : hasArrow (k ++ strC " <- " ++ R) = true := by
    simp only [hasArrow, hsplit]
    rfl
  have hstripk : pyStrip (k ++ [' ']) = k := by
    refine pyStrip_append_ws_right _ _ (by decide) ?_ ?_
    · intro x hx
      exact (hic x (hkid x (List.mem_of_mem_head? hx))).1
    · intro x hx
      exact (hic x (hkid x (mem_of_getLast?_eq hx))).1
  have hdelk : delChar '"' k = k := by
    refine List.filter_eq_self.mpr ?_
    intro a ha
    exact decide_eq_true (hic a (hkid a ha)).2.2
  have hstripR : pyStrip (' ' :: R) = R :=
    pyStrip_cons_ws_left _ _ (by decide) hRh hRl
  have hdelR : delChar 'L' R = R := by
    refine List.filter_eq_self.mpr ?_
    intro a ha
    exact decide_eq_true (fun he => hRL (he ▸ ha))
  refine ⟨?_, hha⟩
  unfold processStatement
  rw [show ([k ++ strC " <- " ++ R] : List Chars).flatten = k ++ strC " <- " ++ R from by simp]
  simp only [hsplit, List.map_cons, List.map_nil]
  rw [hstripk, hdelk, hstripR, hdelR]

/-- One mapping entry: the encoder writes one assignment line, and the
decoder recovers exactly the entry with the value in decoded form. -/
theorem encode_decode_entry (k : Chars) (v : PyVal)
    (hk : keyOK k = true) (hv : pyValOK v = true) :
    ∃ line, rdumpLine k v = .ok line ∧ hasArrow line = true ∧
      processStatement [line] = .ok (k, toRVal v) := by
  simp only [keyOK, Bool.and_eq_true, List.all_eq_true, decide_eq_true_eq] at hk
  obtain ⟨hka, hkid⟩ := hk
  have hk1 : k ≠ [] := by
    intro hcon
    rw [hcon] at hka
    simp at hka
  have hnum : ∀ c ∈ numChars, c ∈ rhsPool :=
    fun c hc => List.mem_append.mpr (Or.inr hc)
  have hsep : ∀ c ∈ strC ", ", c ∈ rhsPool := by decide
  cases v with
  | vint n =>
    refine ⟨k ++ strC " <- " ++ intStr n, rfl, ?_, ?_⟩
    all_goals {
      have hmem := fun c hc => hnum c (intStr_mem n c hc)
      obtain ⟨hps, hha⟩ := processStatement_encoded k (intStr n) hk1 hkid
        (fun hm => (rhsPool_facts '<' (hmem '<' hm)).1 rfl)
        (fun hm => (rhsPool_facts 'L' (hmem 'L' hm)).2.1 rfl)
        (fun c hc => (numChars_facts c (intStr_mem n c (List.mem_of_mem_head? hc))).1)
        (fun c hc => (numChars_facts c (intStr_mem n c (mem_of_getLast?_eq hc))).1)
      first
      | exact hha
      | (rw [hps, parse_int_line n]; rfl)
    }
  | vfloat d =>
    have hfrac : 1 ≤ d.frac := by
      simp only [pyValOK, decide_eq_true_eq] at hv
      exact hv
    refine ⟨k ++ strC " <- " ++ pyFloatStr d, rfl, ?_, ?_⟩
    all_goals {
      have hmem := fun c hc => hnum c (pyFloatStr_mem d c hc)
      obtain ⟨hps, hha⟩ := processStatement_encoded k (pyFloatStr d) hk1 hkid
        (fun hm => (rhsPool_facts '<' (hmem '<' hm)).1 rfl)
        (fun hm => (rhsPool_facts 'L' (hmem 'L' hm)).2.1 rfl)
        (fun c hc => (numChars_facts c (pyFloatStr_mem d c (List.mem_of_mem_head? hc))).1)
        (fun c hc => (numChars_facts c (pyFloatStr_mem d c (mem_of_getLast?_eq hc))).1)
      first
      | exact hha
      | (rw [hps, parse_float_line d hfrac]; rfl)
    }
  | vlist xs =>
    simp only [pyValOK, Bool.and_eq_true, List.all_eq_true, decide_eq_true_eq] at hv
    obtain ⟨hlen2, hfr⟩ := hv
    have hxs : xs ≠ [] := by
      intro hcon
      rw [hcon] at hlen2
      simp at hlen2
    have hRdef : _rdump_array k xs [xs.length]
        = k ++ strC " <- "
          ++ (strC "c(" ++ (joinSep (strC ", ") ((colMajorFlatten xs [xs.length]).map pyFloatStr) ++ [')'])) := by
      unfold _rdump_array
      rw [if_pos (by simp)]
      simp only [List.append_assoc]
    have hflat : colMajorFlatten xs [xs.length] = xs := colMajorFlatten_single xs
    have hmemV : ∀ c ∈ joinSep (strC ", ") (xs.map pyFloatStr), c ∈ rhsPool := by
      refine joinSep_subset _ _ hsep _ ?_
      intro p hp
      simp only [List.mem_map] at hp
      obtain ⟨d2, _, rfl⟩ := hp
      exact fun c hc => hnum c (pyFloatStr_mem d2 c hc)
    have hmemR : ∀ c ∈ strC "c(" ++ (joinSep (strC ", ") (xs.map pyFloatStr) ++ [')']),
        c ∈ rhsPool := by
      intro c hc
      rcases List.mem_append.mp hc with h1 | h2
      · exact (show ∀ x ∈ strC "c(", x ∈ rhsPool from by decide) c h1
      · rcases List.mem_append.mp h2 with h2a | h2b
        · exact hmemV c h2a
        · simp at h2b
          subst h2b
          decide
    have hwsR : ∀ c ∈ rhsPool, c = ' ' ∨ isPyWs c = false := by decide
    obtain ⟨hps, hha⟩ := processStatement_encoded k
      (strC "c(" ++ (joinSep (strC ", ") (xs.map pyFloatStr) ++ [')'])) hk1 hkid
      (fun hm => (rhsPool_facts '<' (hmemR '<' hm)).1 rfl)
      (fun hm => (rhsPool_facts 'L' (hmemR 'L' hm)).2.1 rfl)
      (by
        intro c hc
        rw [show (strC "c(" ++ (joinSep (strC ", ") (xs.map pyFloatStr) ++ [')'])).head?
          = some 'c' from rfl] at hc
        injection hc with hc
        rw [← hc]; decide)
      (by
        intro c hc
        rw [show strC "c(" ++ (joinSep (strC ", ") (xs.map pyFloatStr) ++ [')'])
            = (strC "c(" ++ joinSep (strC ", ") (xs.map pyFloatStr)) ++ [')'] from by
          rw [List.append_assoc], List.getLast?_concat] at hc
        injection hc with hc
        rw [← hc]; decide)
    refine ⟨_, ?_, hha, ?_⟩
    · simp only [rdumpLine]
      rw [if_pos hlen2, hRdef, hflat]
    · rw [hps, parse_vec_line xs hxs hfr]
      rfl
  | varray xs shape =>
    simp only [pyValOK, Bool.and_eq_true, List.all_eq_true, decide_eq_true_eq] at hv
    obtain ⟨⟨hlen2, hprod2⟩, hfr⟩ := hv
    have hxs : xs ≠ [] := by
      intro hcon
      rw [hcon] at hlen2
      simp at hlen2
    by_cases hsh : shape = [shape.prod]
    · -- one-dimensional: c(...) form, decoded as a vector
      have hshape1 : shape = [xs.length] := by rw [hsh, ← hprod2]
      have hRdef : _rdump_array k xs shape
          = k ++ strC " <- "
            ++ (strC "c(" ++ (joinSep (strC ", ") ((colMajorFlatten xs shape).map pyFloatStr) ++ [')'])) := by
        unfold _rdump_array
        rw [if_pos hsh]
        simp only [List.append_assoc]
      have hflat : colMajorFlatten xs shape = xs := by
        rw [hshape1]
        exact colMajorFlatten_single xs
      have hmemV : ∀ c ∈ joinSep (strC ", ") (xs.map pyFloatStr), c ∈ rhsPool := by
        refine joinSep_subset _ _ hsep _ ?_
        intro p hp
        simp only [List.mem_map] at hp
        obtain ⟨d2, _, rfl⟩ := hp
        exact fun c hc => hnum c (pyFloatStr_mem d2 c hc)
      have hmemR : ∀ c ∈ strC "c(" ++ (joinSep (strC ", ") (xs.map pyFloatStr) ++ [')']),
          c ∈ rhsPool := by
        intro c hc
        rcases List.mem_append.mp hc with h1 | h2
        · exact (show ∀ x ∈ strC "c(", x ∈ rhsPool from by decide) c h1
        · rcases List.mem_append.mp h2 with h2a | h2b
          · exact hmemV c h2a
          · simp at h2b
            subst h2b
            decide
      obtain ⟨hps, hha⟩ := processStatement_encoded k
        (strC "c(" ++ (joinSep (strC ", ") (xs.map pyFloatStr) ++ [')'])) hk1 hkid
        (fun hm => (rhsPool_facts '<' (hmemR '<' hm)).1 rfl)
        (fun hm => (rhsPool_facts 'L' (hmemR 'L' hm)).2.1 rfl)
        (by
          intro c hc
          rw [show (strC "c(" ++ (joinSep (strC ", ") (xs.map pyFloatStr) ++ [')'])).head?
            = some 'c' from rfl] at hc
          injection hc with hc
          rw [← hc]; decide)
        (by
          intro c hc
          rw [show strC "c(" ++ (joinSep (strC ", ") (xs.map pyFloatStr) ++ [')'])
              = (strC "c(" ++ joinSep (strC ", ") (xs.map pyFloatStr)) ++ [')'] from by
            rw [List.append_assoc], List.getLast?_concat] at hc
          injection hc with hc
          rw [← hc]; decide)
      refine ⟨_, ?_, hha, ?_⟩
      · simp only [rdumpLine]
        rw [if_pos hlen2, hRdef, hflat]
      · rw [hps, parse_vec_line xs hxs hfr]
        rw [show toRVal (.varray xs shape) = .rvec xs from by simp only [toRVal]; rw [if_pos hsh]]
        rfl
    · -- multi-dimensional: structure(...) form
      have hshnil : shape ≠ [] := by
        intro hcon
        rw [hcon] at hprod2
        simp only [List.prod_nil] at hprod2
        omega
      obtain ⟨dd1, rest1, hshcons⟩ := List.exists_cons_of_ne_nil hshnil
      have hrest1 : rest1 ≠ [] := by
        intro hcon
        apply hsh
        rw [hshcons, hcon]
        simp
      obtain ⟨dd2, rest2, hrestcons⟩ := List.exists_cons_of_ne_nil hrest1
      have htuple : tupleStr shape
          = '(' :: (joinSep (strC ", ") (shape.map natStr) ++ [')']) := by
        rw [hshcons, hrestcons]
        rfl
      have hRdef : _rdump_array k xs shape
          = k ++ strC " <- "
            ++ (strC "structure(c("
              ++ (joinSep (strC ", ") ((colMajorFlatten xs shape).map pyFloatStr)
                ++ (strC "), .Dim = c("
                  ++ (joinSep (strC ", ") (shape.map natStr) ++ strC "))")))) := by
        unfold _rdump_array
        rw [if_neg hsh, htuple]
        simp only [List.append_assoc, List.cons_append]
        rfl
      have hmemV : ∀ c ∈ joinSep (strC ", ") ((colMajorFlatten xs shape).map pyFloatStr),
          c ∈ rhsPool := by
        refine joinSep_subset _ _ hsep _ ?_
        intro p hp
        simp only [List.mem_map] at hp
        obtain ⟨d2, _, rfl⟩ := hp
        exact fun c hc => hnum c (pyFloatStr_mem d2 c hc)
      have hmemD : ∀ c ∈ joinSep (strC ", ") (shape.map natStr), c ∈ rhsPool := by
        refine joinSep_subset _ _ hsep _ ?_
        intro p hp
        simp only [List.mem_map] at hp
        obtain ⟨s2, _, rfl⟩ := hp
        exact fun c hc => hnum c (digitChars_sub_numChars c (natDigits_mem s2 c hc))
      have hmemR : ∀ c ∈ strC "structure(c("
          ++ (joinSep (strC ", ") ((colMajorFlatten xs shape).map pyFloatStr)
            ++ (strC "), .Dim = c("
              ++ (joinSep (strC ", ") (shape.map natStr) ++ strC "))"))), c ∈ rhsPool := by
        intro c hc
        rcases List.mem_append.mp hc with h1 | h2
        · exact (show ∀ x ∈ strC "structure(c(", x ∈ rhsPool from by decide) c h1
        · rcases List.mem_append.mp h2 with h2a | h2b
          · exact hmemV c h2a
          · rcases List.mem_append.mp h2b with h3a | h3b
            · exact (show ∀ x ∈ strC "), .Dim = c(", x ∈ rhsPool from by decide) c h3a
            · rcases List.mem_append.mp h3b with h4a | h4b
              · exact hmemD c h4a
              · exact (show ∀ x ∈ strC "))", x ∈ rhsPool from by decide) c h4b
      obtain ⟨hps, hha⟩ := processStatement_encoded k
        (strC "structure(c("
          ++ (joinSep (strC ", ") ((colMajorFlatten xs shape).map pyFloatStr)
            ++ (strC "), .Dim = c("
              ++ (joinSep (strC ", ") (shape.map natStr) ++ strC "))")))) hk1 hkid
        (fun hm => (rhsPool_facts '<' (hmemR '<' hm)).1 rfl)
        (fun hm => (rhsPool_facts 'L' (hmemR 'L' hm)).2.1 rfl)
        (by
          intro c hc
          rw [show (strC "structure(c("
            ++ (joinSep (strC ", ") ((colMajorFlatten xs shape).map pyFloatStr)
              ++ (strC "), .Dim = c("
                ++ (joinSep (strC ", ") (shape.map natStr) ++ strC "))")))).head?
            = some 's' from rfl] at hc
          injection hc with hc
          rw [← hc]; decide)
        (by
          intro c hc
          rw [show strC "structure(c("
              ++ (joinSep (strC ", ") ((colMajorFlatten xs shape).map pyFloatStr)
                ++ (strC "), .Dim = c("
                  ++ (joinSep (strC ", ") (shape.map natStr) ++ strC "))")))
              = (strC "structure(c("
                ++ (joinSep (strC ", ") ((colMajorFlatten xs shape).map pyFloatStr)
                  ++ (strC "), .Dim = c("
                    ++ (joinSep (strC ", ") (shape.map natStr) ++ [')'])))) ++ [')'] from by
            simp only [List.append_assoc]
            rfl, List.getLast?_concat] at hc
          injection hc with hc
          rw [← hc]; decide)
      refine ⟨_, ?_, hha, ?_⟩
      · simp only [rdumpLine]
        rw [if_pos hlen2, hRdef]
      · rw [hps, parse_struct_line xs shape hprod2 hxs hshnil hfr]
        rw [show toRVal (.varray xs shape) = .rarr xs shape from by
          simp only [toRVal]
          rw [if_neg hsh]]
        rfl


/-! ## Assembling the round trip -/

theorem rloadGroupsGo_singletons :
    ∀ (fuel : ℕ) (ls : List Chars), ls.length ≤ fuel → (∀ l ∈ ls, hasArrow l = true) →
      rloadGroupsGo fuel ls = ls.map (fun l => [l]) := by
  intro fuel
  induction fuel with
  | zero =>
    intro ls hf _
    rw [List.length_eq_zero.mp (Nat.le_zero.mp hf)]
    rfl
  | succ f ih =>
    intro ls hf hall
    cases ls with
    | nil => rfl
    | cons l rest =>
      rw [rloadGroupsGo]
      have htw : rest.takeWhile (fun s => !hasArrow s) = [] := by
        cases rest with
        | nil => rfl
        | cons r rs =>
          exact takeWhile_cons_false _ _ _ (by
            rw [hall r (List.mem_cons_of_mem l (List.mem_cons_self r rs))]; rfl)
      have hdw : rest.dropWhile (fun s => !hasArrow s) = rest := by
        cases rest with
        | nil => rfl
        | cons r rs =>
          exact dropWhile_cons_false _ _ _ (by
            rw [hall r (List.mem_cons_of_mem l (List.mem_cons_self r rs))]; rfl)
      rw [htw, hdw, ih rest (by simpa using hf)
        (fun x hx => hall x (List.mem_cons_of_mem l hx))]
      rfl

theorem rloadGroups_singletons (ls : List Chars) (hall : ∀ l ∈ ls, hasArrow l = true) :
    rloadGroups ls = ls.map (fun l => [l]) :=
  rloadGroupsGo_singletons ls.length ls (Nat.le_refl _) hall

theorem foldl_upsert_fresh {β : Type} :
    ∀ (es : List (Chars × β)) (acc : List (Chars × β)),
      (∀ kv ∈ es, acc.any (fun p => decide (p.1 = kv.1)) = false) →
      (es.map Prod.fst).Nodup →
      es.foldl (fun d kv => upsert d kv.1 kv.2) acc = acc ++ es := by
  intro es
  induction es with
  | nil =>
    intro acc _ _
    rw [List.foldl_nil, List.append_nil]
  | cons e es ih =>
    intro acc hfresh hnodup
    simp only [List.map_cons, List.nodup_cons] at hnodup
    obtain ⟨hhead, htail⟩ := hnodup
    rw [List.foldl_cons]
    have hup : upsert acc e.1 e.2 = acc ++ [e] := by
      unfold upsert
      rw [if_neg (by simp [hfresh e (List.mem_cons_self e es)])]
    rw [hup, ih (acc ++ [e]) ?_ htail]
    · rw [List.append_assoc]
      rfl
    · intro kv hkv
      rw [List.any_append]
      have h1 : acc.any (fun p => decide (p.1 = kv.1)) = false :=
        hfresh kv (List.mem_cons_of_mem e hkv)
      have h2 : ([e].any (fun p => decide (p.1 = kv.1))) = false := by
        have hne : e.1 ≠ kv.1 := by
          intro hcon
          exact hhead (hcon ▸ List.mem_map.mpr ⟨kv, hkv, rfl⟩)
        simp [hne]
      rw [h1, h2]
      rfl

/-- Encoding a well-formed mapping yields one assignment line per entry,
each an arrow statement that decodes back to its entry. -/
theorem rdump_decode_blocks (m : List (Chars × PyVal)) :
    (∀ kv ∈ m, keyOK kv.1 = true ∧ pyValOK kv.2 = true) →
    ∃ lines, rdump m = .ok lines ∧ (∀ l ∈ lines, hasArrow l = true) ∧
      (lines.map (fun l => [l])).mapM processStatement
        = .ok (m.map (fun p => (p.1, toRVal p.2))) ∧
      lines.length = m.length := by
  induction m with
  | nil => intro _; exact ⟨[], rfl, by simp, rfl, rfl⟩
  | cons kv m ih =>
    intro h
    obtain ⟨line, hline, hha, hproc⟩ :=
      encode_decode_entry kv.1 kv.2 (h kv (List.mem_cons_self kv m)).1
        (h kv (List.mem_cons_self kv m)).2
    obtain ⟨lines, hlines, hhas, hmapM, hlen⟩ := ih (fun x hx => h x (List.mem_cons_of_mem _ hx))
    refine ⟨line :: lines, ?_, ?_, ?_, ?_⟩
    · unfold rdump
      simp only [List.mapM_cons]
      rw [hline]
      unfold rdump at hlines
      rw [hlines]
      rfl
    · intro l hl
      rcases List.mem_cons.mp hl with h1 | h2
      · rw [h1]; exact hha
      · exact hhas l h2
    · simp only [List.map_cons, List.mapM_cons]
      rw [hproc, hmapM]
      rfl
    · simp [hlen]

/-- C1 (amended): for a nonempty mapping with distinct well-formed keys
whose values are ints, floats with a fractional digit, lists with more
than one element, and arrays with more than one element and matching
shape, decoding the encoded dump reproduces every key with its value in
decoded form (toRVal): floats and ints come back exactly, lists and 1-D
arrays come back as 1-D arrays with the same numeric values, and
multi-dimensional arrays come back with the same shape and element
placement.  An empty mapping decodes to None, and one-element lists or
arrays are outside the faithful fragment (see the counterexample). -/
theorem c1_round_trip (m : List (Chars × PyVal)) (hne : m ≠ [])
    (hnodup : (m.map Prod.fst).Nodup)
    (h : ∀ kv ∈ m, keyOK kv.1 = true ∧ pyValOK kv.2 = true) :
    ∃ lines, rdump m = .ok lines ∧
      rload lines = .ok (some (m.map (fun p => (p.1, toRVal p.2)))) := by
  obtain ⟨lines, hlines, hhas, hmapM, hlen⟩ := rdump_decode_blocks m h
  have hlne : lines ≠ [] := by
    intro hcon
    rw [hcon] at hlen
    exact hne (List.eq_nil_of_length_eq_zero hlen.symm)
  obtain ⟨l0, lr, rfl⟩ := List.exists_cons_of_ne_nil hlne
  refine ⟨l0 :: lr, hlines, ?_⟩
  unfold rload
  rw [dropWhile_cons_false _ _ _ (by
    rw [hhas l0 (List.mem_cons_self l0 lr)]; rfl)]
  simp only []
  rw [rloadGroups_singletons (l0 :: lr) hhas, hmapM]
  simp only [bind, Except.bind]
  have hkeys : ((m.map (fun p => (p.1, toRVal p.2))).map Prod.fst).Nodup := by
    rw [List.map_map]
    simpa [Function.comp_def] using hnodup
  rw [show (m.map (fun p => (p.1, toRVal p.2))).foldl (fun d kv => upsert d kv.1 kv.2) []
    = [] ++ m.map (fun p => (p.1, toRVal p.2)) from
      foldl_upsert_fresh _ [] (fun kv _ => rfl) hkeys]
  rfl

/-- C1 counterexample: the empty mapping decodes to None rather than an
empty mapping, and a one-element two-dimensional array is written in
scalar form, so its decode is the float scalar and the (1, 1) shape is
lost. -/
theorem c1_counterexample :
    (rdump [] = .ok [] ∧ rload [] = .ok none) ∧
    rdump [(strC "x", PyVal.varray [⟨50, 1⟩] [1, 1])] = .ok [strC "x <- 5.0"] ∧
    rload [strC "x <- 5.0"] = .ok (some [(strC "x", RVal.rfloat ⟨50, 1⟩)]) ∧
    toRVal (PyVal.varray [⟨50, 1⟩] [1, 1]) = RVal.rarr [⟨50, 1⟩] [1, 1] ∧
    RVal.rfloat ⟨50, 1⟩ ≠ RVal.rarr [⟨50, 1⟩] [1, 1] := by
  decide

/-- C1 witness: a four-entry mapping with an int, a float, a list and a
2x3 array round-trips through the dump text. -/
theorem c1_witness :
    rdump [(strC "a", PyVal.vint (-3)), (strC "b", PyVal.vfloat ⟨25, 1⟩),
        (strC "c", PyVal.vlist [⟨10, 1⟩, ⟨20, 1⟩]),
        (strC "d", PyVal.varray [⟨10, 1⟩, ⟨20, 1⟩, ⟨30, 1⟩, ⟨40, 1⟩, ⟨50, 1⟩, ⟨60, 1⟩] [2, 3])]
      = .ok [strC "a <- -3", strC "b <- 2.5", strC "c <- c(1.0, 2.0)",
          strC "d <- structure(c(1.0, 4.0, 2.0, 5.0, 3.0, 6.0), .Dim = c(2, 3))"] ∧
    rload [strC "a <- -3", strC "b <- 2.5", strC "c <- c(1.0, 2.0)",
        strC "d <- structure(c(1.0, 4.0, 2.0, 5.0, 3.0, 6.0), .Dim = c(2, 3))"]
      = .ok (some [(strC "a", RVal.rint (-3)), (strC "b", RVal.rfloat ⟨25, 1⟩),
          (strC "c", RVal.rvec [⟨10, 1⟩, ⟨20, 1⟩]),
          (strC "d", RVal.rarr [⟨10, 1⟩, ⟨20, 1⟩, ⟨30, 1⟩, ⟨40, 1⟩, ⟨50, 1⟩, ⟨60, 1⟩] [2, 3])]) := by
  obtain ⟨lines, h1, h2⟩ := c1_round_trip
    [(strC "a", PyVal.vint (-3)), (strC "b", PyVal.vfloat ⟨25, 1⟩),
     (strC "c", PyVal.vlist [⟨10, 1⟩, ⟨20, 1⟩]),
     (strC "d", PyVal.varray [⟨10, 1⟩, ⟨20, 1⟩, ⟨30, 1⟩, ⟨40, 1⟩, ⟨50, 1⟩, ⟨60, 1⟩] [2, 3])]
    (by decide) (by decide) (by decide)
  have h0 : rdump [(strC "a", PyVal.vint (-3)), (strC "b", PyVal.vfloat ⟨25, 1⟩),
      (strC "c", PyVal.vlist [⟨10, 1⟩, ⟨20, 1⟩]),
      (strC "d", PyVal.varray [⟨10, 1⟩, ⟨20, 1⟩, ⟨30, 1⟩, ⟨40, 1⟩, ⟨50, 1⟩, ⟨60, 1⟩] [2, 3])]
      = .ok [strC "a <- -3", strC "b <- 2.5", strC "c <- c(1.0, 2.0)",
          strC "d <- structure(c(1.0, 4.0, 2.0, 5.0, 3.0, 6.0), .Dim = c(2, 3))"] := by
    decide
  rw [h0] at h1
  injection h1 with h1
  rw [← h1] at h2
  refine ⟨h0, ?_⟩
  rw [h2]
  decide
